import Mathlib

/-!
# Verification of the `chinese-number` crate (formatter / parser core)

This file gives a shallow embedding of `src/lib.rs` of the `chinese-number`
crate and proves (or refutes) the frozen claims about it.

Strings are modelled as `List Char`; Rust `String` buffers become list
append.  Machine integers become `Nat` / `Int` with the Rust casts made
explicit (`% 2^w` truncation); panics (`assert!` / `unimplemented!`) make the
surrounding function return `Option` / a constant.

The repository's modules `constants.rs` and `inner_functions.rs` (the glyph
tables, the digit emitters `digit_*` / `digit_compat_*` and the parsing
helpers `chinese_digit_*`) are not part of the sources; every definition
standing in for them carries a doc comment starting with
`Modelled from the spec:` and follows §3, §4.1–§4.4 of the specification.
Everything else is translated directly from `src/lib.rs`.
-/

namespace ChineseNumber

/-- Script variant (crate `chinese_variant::ChineseVariant`). -/
inductive ChineseVariant
  | Traditional
  | Simple
deriving DecidableEq, Repr

/-- Orthographic case (crate `ChineseNumberCase`): `Upper` is the formal /
financial style, `Lower` the everyday informal style. -/
inductive ChineseNumberCase
  | Upper
  | Lower
deriving DecidableEq, Repr

/-- Counting convention (crate `ChineseNumberCountMethod`). -/
inductive ChineseNumberCountMethod
  | Low
  | TenThousand
  | Middle
  | High
deriving DecidableEq, Repr

/-- Parse error (crate `ChineseNumberParseError`). -/
inductive ChineseNumberParseError
  | ChineseNumberEmpty
  | ChineseNumberIncorrect (charIndex : Nat)
  | Overflow
  | Underflow
deriving DecidableEq, Repr

open ChineseVariant ChineseNumberCase ChineseNumberCountMethod

/-- Modelled from the spec: §4.1 digit table `DIGITS[styling_idx][0..=9]`.
Informal (Lower) digits are 零一二三四五六七八九 in both variants; formal
(Upper) digits are 零壹貳參肆伍陸柒捌玖 (Traditional) and 零壹贰参肆伍陆柒捌玖
(Simple), as fixed by the spec's concrete scenarios. -/
def digitChar (v : ChineseVariant) (c : ChineseNumberCase) (d : Nat) : Char :=
  match c, v with
  | Lower, _ =>
    match d with
    | 0 => '零' | 1 => '一' | 2 => '二' | 3 => '三' | 4 => '四'
    | 5 => '五' | 6 => '六' | 7 => '七' | 8 => '八' | _ => '九'
  | Upper, Traditional =>
    match d with
    | 0 => '零' | 1 => '壹' | 2 => '貳' | 3 => '參' | 4 => '肆'
    | 5 => '伍' | 6 => '陸' | 7 => '柒' | 8 => '捌' | _ => '玖'
  | Upper, Simple =>
    match d with
    | 0 => '零' | 1 => '壹' | 2 => '贰' | 3 => '参' | 4 => '肆'
    | 5 => '伍' | 6 => '陆' | 7 => '柒' | 8 => '捌' | _ => '玖'

/-- Modelled from the spec: §4.1 small-unit table `SMALL_UNITS[styling_idx]`.
`e` is the decimal exponent: 1 ↦ 十/拾, 2 ↦ 百/佰, 3 ↦ 千/仟. -/
def smallUnitChar (_v : ChineseVariant) (c : ChineseNumberCase) (e : Nat) : Char :=
  match c with
  | Lower => match e with | 1 => '十' | 2 => '百' | _ => '千'
  | Upper => match e with | 1 => '拾' | 2 => '佰' | _ => '仟'

/-- Modelled from the spec: §4.1 large-unit table `LARGE_UNITS[styling_idx]`,
the ordered sequence 萬, 億, 兆, 京, 垓, 秭, 穰, 溝, 澗, 正, 載, 極 (index
`0..=11`), with simplified glyphs 万, 亿, 沟, 涧, 载, 极 where they differ. -/
def largeUnitChar (v : ChineseVariant) (i : Nat) : Char :=
  match v with
  | Traditional =>
    match i with
    | 0 => '萬' | 1 => '億' | 2 => '兆' | 3 => '京' | 4 => '垓' | 5 => '秭'
    | 6 => '穰' | 7 => '溝' | 8 => '澗' | 9 => '正' | 10 => '載' | _ => '極'
  | Simple =>
    match i with
    | 0 => '万' | 1 => '亿' | 2 => '兆' | 3 => '京' | 4 => '垓' | 5 => '秭'
    | 6 => '穰' | 7 => '沟' | 8 => '涧' | 9 => '正' | 10 => '载' | _ => '极'

/-- Modelled from the spec: §4.1 `NEGATIVE[variant]`, 負 / 负. -/
def negChar (v : ChineseVariant) : Char :=
  match v with
  | Traditional => '負'
  | Simple => '负'

/-- `CHINESE_NEGATIVE_SIGN_CHARS` of the crate: both variants' signs. -/
def negCharList : List Char := ['負', '负']

/-- Modelled from the spec: §4.1 fraction units 角 (tenths), 分 (hundredths);
identical glyphs in both variants. -/
def fractionChar (j : Nat) : Char :=
  match j with
  | 0 => '角'
  | _ => '分'

/-- Modelled from the spec: §4.1 reverse lookup, digit part.  Accepts any
mixture of cases and variants. -/
def charToDigit (ch : Char) : Option Nat :=
  match ch with
  | '零' => some 0
  | '一' => some 1 | '壹' => some 1
  | '二' => some 2 | '貳' => some 2 | '贰' => some 2
  | '三' => some 3 | '參' => some 3 | '参' => some 3
  | '四' => some 4 | '肆' => some 4
  | '五' => some 5 | '伍' => some 5
  | '六' => some 6 | '陸' => some 6 | '陆' => some 6
  | '七' => some 7 | '柒' => some 7
  | '八' => some 8 | '捌' => some 8
  | '九' => some 9 | '玖' => some 9
  | _ => none

/-- Modelled from the spec: §4.1 reverse lookup, small-unit part
(exponent 1, 2, 3). -/
def charToSmallUnit (ch : Char) : Option Nat :=
  match ch with
  | '十' => some 1 | '拾' => some 1
  | '百' => some 2 | '佰' => some 2
  | '千' => some 3 | '仟' => some 3
  | _ => none

/-- Modelled from the spec: §4.1 reverse lookup, large-unit part
(index into the 萬…極 ladder). -/
def charToLargeUnit (ch : Char) : Option Nat :=
  match ch with
  | '萬' => some 0 | '万' => some 0
  | '億' => some 1 | '亿' => some 1
  | '兆' => some 2
  | '京' => some 3
  | '垓' => some 4
  | '秭' => some 5
  | '穰' => some 6
  | '溝' => some 7 | '沟' => some 7
  | '澗' => some 8 | '涧' => some 8
  | '正' => some 9
  | '載' => some 10 | '载' => some 10
  | '極' => some 11 | '极' => some 11
  | _ => none

/-- The zero-connector glyph test (spec §4.1: all four stylings use 零). -/
def isZeroChar (ch : Char) : Bool := ch = '零'

section ClassificationLemmas

/-- A nonzero digit glyph classifies back to its digit. -/
theorem charToDigit_digitChar (v : ChineseVariant) (c : ChineseNumberCase)
    (d : Nat) (h1 : 1 ≤ d) (h2 : d ≤ 9) :
    charToDigit (digitChar v c d) = some d := by
  cases v <;> cases c <;> interval_cases d <;> rfl

/-- The zero digit glyph is the zero connector. -/
theorem digitChar_zero (v : ChineseVariant) (c : ChineseNumberCase) :
    digitChar v c 0 = '零' := by
  cases v <;> cases c <;> rfl

/-- A nonzero digit glyph is not the zero connector. -/
theorem isZeroChar_digitChar (v : ChineseVariant) (c : ChineseNumberCase)
    (d : Nat) (h1 : 1 ≤ d) (h2 : d ≤ 9) :
    isZeroChar (digitChar v c d) = false := by
  cases v <;> cases c <;> interval_cases d <;> rfl

/-- Digit glyphs are not small units. -/
theorem charToSmallUnit_digitChar (v : ChineseVariant) (c : ChineseNumberCase)
    (d : Nat) (h2 : d ≤ 9) :
    charToSmallUnit (digitChar v c d) = none := by
  cases v <;> cases c <;> interval_cases d <;> rfl

/-- Digit glyphs are not large units. -/
theorem charToLargeUnit_digitChar (v : ChineseVariant) (c : ChineseNumberCase)
    (d : Nat) (h2 : d ≤ 9) :
    charToLargeUnit (digitChar v c d) = none := by
  cases v <;> cases c <;> interval_cases d <;> rfl

/-- A small-unit glyph classifies back to its exponent. -/
theorem charToSmallUnit_smallUnitChar (v : ChineseVariant)
    (c : ChineseNumberCase) (e : Nat) (h1 : 1 ≤ e) (h2 : e ≤ 3) :
    charToSmallUnit (smallUnitChar v c e) = some e := by
  cases v <;> cases c <;> interval_cases e <;> rfl

/-- Small-unit glyphs are not digits. -/
theorem charToDigit_smallUnitChar (v : ChineseVariant) (c : ChineseNumberCase)
    (e : Nat) : charToDigit (smallUnitChar v c e) = none := by
  cases v <;> cases c <;> rcases e with _ | _ | _ | e <;> rfl

/-- Small-unit glyphs are not the zero connector. -/
theorem isZeroChar_smallUnitChar (v : ChineseVariant) (c : ChineseNumberCase)
    (e : Nat) : isZeroChar (smallUnitChar v c e) = false := by
  cases v <;> cases c <;> rcases e with _ | _ | _ | e <;> rfl

/-- A large-unit glyph classifies back to its ladder index. -/
theorem charToLargeUnit_largeUnitChar (v : ChineseVariant) (i : Nat)
    (h : i ≤ 11) : charToLargeUnit (largeUnitChar v i) = some i := by
  cases v <;> interval_cases i <;> rfl

/-- Large-unit glyphs are not digits. -/
theorem charToDigit_largeUnitChar (v : ChineseVariant) (i : Nat) :
    charToDigit (largeUnitChar v i) = none := by
  cases v <;>
    rcases i with _ | _ | _ | _ | _ | _ | _ | _ | _ | _ | _ | i <;> rfl

/-- Large-unit glyphs are not small units. -/
theorem charToSmallUnit_largeUnitChar (v : ChineseVariant) (i : Nat) :
    charToSmallUnit (largeUnitChar v i) = none := by
  cases v <;>
    rcases i with _ | _ | _ | _ | _ | _ | _ | _ | _ | _ | _ | i <;> rfl

/-- Large-unit glyphs are not the zero connector. -/
theorem isZeroChar_largeUnitChar (v : ChineseVariant) (i : Nat) :
    isZeroChar (largeUnitChar v i) = false := by
  cases v <;>
    rcases i with _ | _ | _ | _ | _ | _ | _ | _ | _ | _ | _ | i <;> rfl

end ClassificationLemmas

/-! ## The unit ladders of the four counting conventions -/

/-- Modelled from the spec: §3 convention magnitudes.  `unitExp m i` is the
decimal exponent of large unit `i` (0 = 萬 … 11 = 極) under convention `m`:
Low adds one decade per unit, TenThousand four, Middle eight (萬 stays 10⁴),
High doubles the exponent from 億 on. -/
def unitExp (m : ChineseNumberCountMethod) (i : Nat) : Nat :=
  match m with
  | Low => 4 + i
  | TenThousand => 4 * (i + 1)
  | Middle => if i = 0 then 4 else 8 * i
  | High => if i = 0 then 4 else if i = 1 then 8 else 2 ^ (i + 2)

/-- Scan a descending index list for the first unit whose magnitude is at
most `n`. -/
def largestUnitAux (m : ChineseNumberCountMethod) (n : Nat) :
    List Nat → Option Nat
  | [] => none
  | i :: is => if 10 ^ unitExp m i ≤ n then some i else largestUnitAux m n is

/-- All large-unit indices, from 極 down to 萬. -/
def unitIdxDesc : List Nat := [11, 10, 9, 8, 7, 6, 5, 4, 3, 2, 1, 0]

/-- The largest unit of convention `m` whose magnitude is at most `n`. -/
def largestUnit (m : ChineseNumberCountMethod) (n : Nat) : Option Nat :=
  largestUnitAux m n unitIdxDesc

theorem unitExp_ge_four (m : ChineseNumberCountMethod) (i : Nat) :
    4 ≤ unitExp m i := by
  cases m with
  | Low => simp [unitExp]
  | TenThousand => simp only [unitExp]; omega
  | Middle =>
    simp only [unitExp]
    split
    · exact le_refl 4
    · rename_i h; omega
  | High =>
    simp only [unitExp]
    split
    · exact le_refl 4
    split
    · omega
    · rename_i h1 h2
      calc 4 ≤ 2 ^ 4 := by norm_num
        _ ≤ 2 ^ (i + 2) := Nat.pow_le_pow_right (by norm_num) (by omega)

theorem unitExp_high_two (k : Nat) : unitExp High (k + 2) = 2 ^ (k + 4) := by
  show (if k + 2 = 0 then 4 else if k + 2 = 1 then 8 else 2 ^ (k + 2 + 2)) = _
  rw [if_neg (by omega), if_neg (by omega)]

theorem unitExp_strictMono (m : ChineseNumberCountMethod) {i j : Nat}
    (h : i < j) : unitExp m i < unitExp m j := by
  cases m with
  | Low => simp [unitExp]; omega
  | TenThousand => simp [unitExp]; omega
  | Middle =>
    simp only [unitExp]
    split <;> split <;> omega
  | High =>
    rcases i with _ | _ | i <;> rcases j with _ | _ | j <;> try omega
    · decide
    · rw [unitExp_high_two]
      show unitExp High 0 < _
      calc unitExp High 0 = 4 := rfl
        _ < 2 ^ 4 := by norm_num
        _ ≤ 2 ^ (j + 4) := Nat.pow_le_pow_right (by norm_num) (by omega)
    · rw [unitExp_high_two]
      show unitExp High 1 < _
      calc unitExp High 1 = 8 := rfl
        _ < 2 ^ 4 := by norm_num
        _ ≤ 2 ^ (j + 4) := Nat.pow_le_pow_right (by norm_num) (by omega)
    · rw [unitExp_high_two, unitExp_high_two]
      exact Nat.pow_lt_pow_right (by norm_num) (by omega)

theorem unitExp_mono (m : ChineseNumberCountMethod) {i j : Nat} (h : i ≤ j) :
    unitExp m i ≤ unitExp m j := by
  rcases Nat.lt_or_ge i j with h' | h'
  · exact le_of_lt (unitExp_strictMono m h')
  · have : i = j := le_antisymm h h'
    simp [this]

theorem unitExp_succ_le_two_mul (m : ChineseNumberCountMethod) (i : Nat) :
    unitExp m (i + 1) ≤ 2 * unitExp m i := by
  cases m with
  | Low => simp [unitExp]; omega
  | TenThousand => simp [unitExp]; omega
  | Middle =>
    simp only [unitExp]
    split <;> split <;> omega
  | High =>
    rcases i with _ | _ | i
    · simp [unitExp]
    · simp [unitExp]
    · have h1 : i + 2 + 1 = i + 1 + 2 := by omega
      rw [h1, unitExp_high_two, unitExp_high_two]
      have h2 : i + 1 + 4 = (i + 4) + 1 := by omega
      rw [h2, pow_succ]
      omega

theorem largestUnitAux_some {m : ChineseNumberCountMethod} {n i : Nat}
    {L : List Nat} (h : largestUnitAux m n L = some i) :
    10 ^ unitExp m i ≤ n ∧ i ∈ L := by
  induction L with
  | nil => simp [largestUnitAux] at h
  | cons j L ih =>
    simp only [largestUnitAux] at h
    split at h
    · rename_i hj
      cases h
      exact ⟨hj, List.mem_cons_self _ _⟩
    · rcases ih h with ⟨h1, h2⟩
      exact ⟨h1, List.mem_cons_of_mem _ h2⟩

theorem largestUnit_some {m : ChineseNumberCountMethod} {n i : Nat}
    (h : largestUnit m n = some i) :
    10 ^ unitExp m i ≤ n ∧ i ≤ 11 := by
  rcases largestUnitAux_some h with ⟨h1, h2⟩
  refine ⟨h1, ?_⟩
  simp [unitIdxDesc] at h2
  omega

theorem largestUnit_none_of_lt {m : ChineseNumberCountMethod} {n : Nat}
    (h : n < 10 ^ 4) : largestUnit m n = none := by
  have key : ∀ L, largestUnitAux m n L = none := by
    intro L
    induction L with
    | nil => rfl
    | cons i L ih =>
      have hle : (10 : Nat) ^ 4 ≤ 10 ^ unitExp m i :=
        Nat.pow_le_pow_right (by norm_num) (unitExp_ge_four m i)
      simp only [largestUnitAux, ih, if_neg (not_le.mpr (lt_of_lt_of_le h hle))]
  exact key unitIdxDesc

theorem largestUnitAux_append {m : ChineseNumberCountMethod} {n k : Nat}
    (L1 L2 : List Nat) (hL1 : ∀ j ∈ L1, n < 10 ^ unitExp m j)
    (hk : 10 ^ unitExp m k ≤ n) :
    largestUnitAux m n (L1 ++ k :: L2) = some k := by
  induction L1 with
  | nil => simp [largestUnitAux, if_pos hk]
  | cons j L1 ih =>
    have hj := hL1 j (List.mem_cons_self _ _)
    simp only [List.cons_append, largestUnitAux, if_neg (not_le.mpr hj)]
    exact ih fun x hx => hL1 x (List.mem_cons_of_mem _ hx)

theorem largestUnit_eq_some {m : ChineseNumberCountMethod} {n k : Nat}
    (h1 : 10 ^ unitExp m k ≤ n) (h2 : n < 10 ^ unitExp m (k + 1))
    (hk : k ≤ 11) : largestUnit m n = some k := by
  have hlt : ∀ j, k < j → n < 10 ^ unitExp m j := by
    intro j hj
    exact lt_of_lt_of_le h2
      (Nat.pow_le_pow_right (by norm_num) (unitExp_mono m hj))
  have mem : ∀ (L : List Nat), (∀ j ∈ L, k < j) →
      (∀ j ∈ L, n < 10 ^ unitExp m j) := by
    intro L h j hj
    exact hlt j (h j hj)
  interval_cases k
  · exact largestUnitAux_append [11, 10, 9, 8, 7, 6, 5, 4, 3, 2, 1] []
      (mem _ (by intro j hj; fin_cases hj <;> omega)) h1
  · exact largestUnitAux_append [11, 10, 9, 8, 7, 6, 5, 4, 3, 2] [0]
      (mem _ (by intro j hj; fin_cases hj <;> omega)) h1
  · exact largestUnitAux_append [11, 10, 9, 8, 7, 6, 5, 4, 3] [1, 0]
      (mem _ (by intro j hj; fin_cases hj <;> omega)) h1
  · exact largestUnitAux_append [11, 10, 9, 8, 7, 6, 5, 4] [2, 1, 0]
      (mem _ (by intro j hj; fin_cases hj <;> omega)) h1
  · exact largestUnitAux_append [11, 10, 9, 8, 7, 6, 5] [3, 2, 1, 0]
      (mem _ (by intro j hj; fin_cases hj <;> omega)) h1
  · exact largestUnitAux_append [11, 10, 9, 8, 7, 6] [4, 3, 2, 1, 0]
      (mem _ (by intro j hj; fin_cases hj <;> omega)) h1
  · exact largestUnitAux_append [11, 10, 9, 8, 7] [5, 4, 3, 2, 1, 0]
      (mem _ (by intro j hj; fin_cases hj <;> omega)) h1
  · exact largestUnitAux_append [11, 10, 9, 8] [6, 5, 4, 3, 2, 1, 0]
      (mem _ (by intro j hj; fin_cases hj <;> omega)) h1
  · exact largestUnitAux_append [11, 10, 9] [7, 6, 5, 4, 3, 2, 1, 0]
      (mem _ (by intro j hj; fin_cases hj <;> omega)) h1
  · exact largestUnitAux_append [11, 10] [8, 7, 6, 5, 4, 3, 2, 1, 0]
      (mem _ (by intro j hj; fin_cases hj <;> omega)) h1
  · exact largestUnitAux_append [11] [9, 8, 7, 6, 5, 4, 3, 2, 1, 0]
      (mem _ (by intro j hj; fin_cases hj <;> omega)) h1
  · exact largestUnitAux_append [] [10, 9, 8, 7, 6, 5, 4, 3, 2, 1, 0]
      (mem _ (by intro j hj; fin_cases hj)) h1

/-! ## The digit emitter and the group cascader (formatter) -/

/-- Modelled from the spec: §4.2 Digit Emitter `emit_group`.  Renders
`n`'s four low decimal digits with the small units 千/百/十, inserting one
zero connector between nonzero digits separated by a zero position.
`lead = false` permits dropping the leading 一 of a bare tens digit
(`with_leading_for_tens` of the spec); per §3 this only happens for the
most-significant group in the Informal case. -/
def emitGroupD (v : ChineseVariant) (c : ChineseNumberCase) (lead : Bool)
    (th h t o : Nat) : List Char :=
  (if th ≠ 0 then [digitChar v c th, smallUnitChar v c 3] else []) ++
  (if h ≠ 0 then [digitChar v c h, smallUnitChar v c 2] else []) ++
  (if t ≠ 0 then
    (if th ≠ 0 ∧ h = 0 then [digitChar v c 0] else []) ++
    (if t = 1 ∧ th = 0 ∧ h = 0 ∧ lead = false then [smallUnitChar v c 1]
     else [digitChar v c t, smallUnitChar v c 1])
   else []) ++
  (if o ≠ 0 then
    (if (th ≠ 0 ∨ h ≠ 0) ∧ t = 0 then [digitChar v c 0] else []) ++
    [digitChar v c o]
   else [])

/-- `emit_group` on a value below 10⁴, decomposed into its decimal digits. -/
def emitGroup (v : ChineseVariant) (c : ChineseNumberCase) (lead : Bool)
    (n : Nat) : List Char :=
  emitGroupD v c lead (n / 1000 % 10) (n / 100 % 10) (n / 10 % 10) (n % 10)

/-- Modelled from the spec: §4.3 Group Cascader for a positive value.  The
value is split at its largest reachable unit; the quotient is rendered
recursively (it carries the `lead` flag of the whole numeral), then the unit
glyph, then — if the remainder is nonzero — one zero connector whenever the
remainder skips the decimal position right below the unit, then the
remainder (always with `lead = true`). -/
def renderCascade (m : ChineseNumberCountMethod) (v : ChineseVariant)
    (c : ChineseNumberCase) (n : Nat) (lead : Bool) : List Char :=
  match hu : largestUnit m n with
  | none => emitGroup v c lead n
  | some i =>
    renderCascade m v c (n / 10 ^ unitExp m i) lead ++
      largeUnitChar v i ::
        (if n % 10 ^ unitExp m i = 0 then []
         else
           (if 10 * (n % 10 ^ unitExp m i) < 10 ^ unitExp m i
            then [digitChar v c 0] else []) ++
           renderCascade m v c (n % 10 ^ unitExp m i) true)
termination_by n
decreasing_by
  · rcases largestUnit_some hu with ⟨h1, _⟩
    have he : (10 : Nat) ^ 4 ≤ 10 ^ unitExp m i :=
      Nat.pow_le_pow_right (by norm_num) (unitExp_ge_four m i)
    exact Nat.div_lt_self (by omega) (by omega)
  · rcases largestUnit_some hu with ⟨h1, _⟩
    have he : (0 : Nat) < 10 ^ unitExp m i := Nat.pos_pow_of_pos _ (by norm_num)
    exact lt_of_lt_of_le (Nat.mod_lt _ he) h1

/-- Modelled from the spec: §4.3 step 1 plus the cascade; `emit_unsigned`.
Zero renders as the single zero digit; otherwise the cascade runs with the
leading-一 suppression active exactly for the Informal (Lower) case. -/
def emitUnsigned (m : ChineseNumberCountMethod) (v : ChineseVariant)
    (c : ChineseNumberCase) (n : Nat) : List Char :=
  if n = 0 then [digitChar v c 0]
  else renderCascade m v c n (match c with | Upper => true | Lower => false)

/-! ## The tokenising parser -/

/-- Modelled from the spec: §4.4 group grammar
`Group := DigitUnit* Digit? | SoloTens`, with `ZeroRun` collapsed, units in
strictly decreasing magnitude (`lastE` is the strict upper bound for the
next small-unit exponent), and a bare final digit filling the ones place.
Returns the group's value and the unconsumed suffix; the caller reports an
unconsumed character as the offending one. -/
def parseGroupAux : List Char → Nat → Nat → Nat × List Char
  | [], _, acc => (acc, [])
  | ch :: rest, lastE, acc =>
    if isZeroChar ch then parseGroupAux rest lastE acc
    else
      match charToDigit ch with
      | some d =>
        match rest with
        | u :: rest2 =>
          match charToSmallUnit u with
          | some e =>
            if e < lastE then parseGroupAux rest2 e (acc + d * 10 ^ e)
            else (acc, ch :: rest)
          | none => (acc + d, rest)
        | [] => (acc + d, [])
      | none =>
        match charToSmallUnit ch with
        | some e =>
          if acc = 0 ∧ e = 1 ∧ 1 < lastE then parseGroupAux rest 1 10
          else (acc, ch :: rest)
        | none => (acc, ch :: rest)

/-- Modelled from the spec: §4.4, parse one group (value below 10⁴ in
rendered numerals). -/
def parseGroup (s : List Char) : Nat × List Char := parseGroupAux s 4 0

/-- The descending list of (unit index, exponent) pairs strictly below
index `k`, for convention `m`: the unit ladder available to a parsing
helper that accepts units up to index `k - 1`. -/
def unitsDesc (m : ChineseNumberCountMethod) : Nat → List (Nat × Nat)
  | 0 => []
  | k + 1 => (k, unitExp m k) :: unitsDesc m k

/-- Modelled from the spec: §4.4 evaluation rules, generalised to the nested
segments the Middle/High helpers of the source handle: at ladder level
`(i, e)`, parse a lower-level numeral; if the unit glyph `i` follows, that
numeral was the unit's multiplier and one more lower-level numeral (the
remainder) is parsed after it.  Returns the value and unconsumed suffix. -/
def parseAt : List (Nat × Nat) → List Char → Nat × List Char
  | [], s => parseGroup s
  | (i, e) :: us, s =>
    let p := parseAt us s
    match p.2 with
    | [] => p
    | ch :: s2 =>
      if charToLargeUnit ch = some i then
        let q := parseAt us s2
        (p.1 * 10 ^ e + q.1, q.2)
      else p

/-- Modelled from the spec: §4.4 contract of the `chinese_digit_*` helpers:
parse the whole window; an unconsumed character is the offending one and its
(character) index is returned as the error. -/
def parseFull (us : List (Nat × Nat)) (w : List Char) : Except Nat Nat :=
  let p := parseAt us w
  match p.2 with
  | [] => .ok p.1
  | _ :: _ => .error (w.length - p.2.length)

/-- Modelled from the spec: helper `chinese_digit_100_compat` — a single
group, no large units. -/
def chinese_digit_100_compat (w : List Char) : Except Nat Nat :=
  parseFull [] w

/-- Modelled from the spec: helper `chinese_digit_10000_ten_thousand_compat`
— ladder up to 萬. -/
def chinese_digit_10000_ten_thousand_compat (w : List Char) : Except Nat Nat :=
  parseFull (unitsDesc TenThousand 1) w

/-- Modelled from the spec: helper
`chinese_digit_100000000_ten_thousand_compat` — ten-thousand ladder up to
億 = 10⁸. -/
def chinese_digit_100000000_ten_thousand_compat (w : List Char) :
    Except Nat Nat :=
  parseFull (unitsDesc TenThousand 2) w

/-- Modelled from the spec: helper
`chinese_digit_10000000000000000_ten_thousand_compat` — ten-thousand ladder
up to 京 = 10¹⁶. -/
def chinese_digit_10000000000000000_ten_thousand_compat (w : List Char) :
    Except Nat Nat :=
  parseFull (unitsDesc TenThousand 4) w

/-- Modelled from the spec: helper `chinese_digit_1000000000_low_compat` —
low ladder up to 秭 = 10⁹. -/
def chinese_digit_1000000000_low_compat (w : List Char) : Except Nat Nat :=
  parseFull (unitsDesc Low 6) w

/-- Modelled from the spec: helper
`chinese_digit_1000000000000000_low_compat` — the full low ladder up to
極 = 10¹⁵. -/
def chinese_digit_1000000000000000_low_compat (w : List Char) :
    Except Nat Nat :=
  parseFull (unitsDesc Low 12) w

/-- Modelled from the spec: helper
`chinese_digit_10000000000000000_middle_compat` — middle ladder up to
兆 = 10¹⁶. -/
def chinese_digit_10000000000000000_middle_compat (w : List Char) :
    Except Nat Nat :=
  parseFull (unitsDesc Middle 3) w

/-- Modelled from the spec: helper `chinese_digit_1`, a single digit glyph. -/
def chinese_digit_1 (ch : Char) : Except Nat Nat :=
  match charToDigit ch with
  | some d => .ok d
  | none => .error 0

/-! ## Integer casts (Rust `as` semantics) -/

/-- Rust's `as iW` cast: two's-complement truncation to `W` bits. -/
def intAsWidth (w : Nat) (x : Int) : Int :=
  (x + 2 ^ (w - 1)) % 2 ^ w - 2 ^ (w - 1)

/-- Rust's `as uW` cast of a signed value: truncation to `W` bits. -/
def wrapU (w : Nat) (x : Int) : Nat := (x % 2 ^ w).toNat

/-! ## Formatter entry points (translated from `lib.rs`) -/

/-- `from_u8_mut` dispatches on magnitude to the missing `digit_100` /
`digit_10` / `digit_1` emitters; modelled from the spec these together are
exactly the group emitter (with zero rendered as the zero digit), i.e. the
cascade below the first large unit. -/
def from_u8 (v : ChineseVariant) (c : ChineseNumberCase) (n : Nat) :
    List Char :=
  emitUnsigned TenThousand v c n

/-- `from_u16_mut`: the missing `digit_10000_compat`, convention-free
(u16 values reach only 萬). -/
def from_u16 (v : ChineseVariant) (c : ChineseNumberCase) (n : Nat) :
    List Char :=
  emitUnsigned TenThousand v c n

/-- `from_u32_mut`: Low uses the low cascade, every other convention the
ten-thousand cascade (exactly the source's match). -/
def from_u32 (v : ChineseVariant) (c : ChineseNumberCase)
    (m : ChineseNumberCountMethod) (n : Nat) : List Char :=
  match m with
  | Low => emitUnsigned Low v c n
  | TenThousand | Middle | High => emitUnsigned TenThousand v c n

/-- `from_u64_mut`: one cascade per convention (High goes through the u128
renderer, which is the identity promotion here). -/
def from_u64 (v : ChineseVariant) (c : ChineseNumberCase)
    (m : ChineseNumberCountMethod) (n : Nat) : List Char :=
  match m with
  | Low => emitUnsigned Low v c n
  | TenThousand => emitUnsigned TenThousand v c n
  | Middle => emitUnsigned Middle v c n
  | High => emitUnsigned High v c n

/-- `from_u128_mut`: the Low arm asserts `value < 10^16` (a panic, modelled
as `none`); the other arms always return. -/
def from_u128 (v : ChineseVariant) (c : ChineseNumberCase)
    (m : ChineseNumberCountMethod) (n : Nat) : Option (List Char) :=
  match m with
  | Low =>
    if n < 10000000000000000 then some (emitUnsigned Low v c n) else none
  | TenThousand => some (emitUnsigned TenThousand v c n)
  | Middle => some (emitUnsigned Middle v c n)
  | High => some (emitUnsigned High v c n)

/-- `from_i8_mut`: sign, then the magnitude; at `i8::MIN` the negation is
done after promotion to i16 (`-(i16::from(value)) as u8`), otherwise inside
i8 (`-value as u8`). -/
def from_i8 (v : ChineseVariant) (c : ChineseNumberCase) (x : Int) :
    List Char :=
  if x < 0 then
    negChar v ::
      (if x = -128 then from_u8 v c (wrapU 8 (-(intAsWidth 16 x)))
       else from_u8 v c (wrapU 8 (intAsWidth 8 (-x))))
  else from_u8 v c (wrapU 8 x)

/-- `from_i16_mut`: as `from_i8_mut` with promotion to i32 at `i16::MIN`. -/
def from_i16 (v : ChineseVariant) (c : ChineseNumberCase) (x : Int) :
    List Char :=
  if x < 0 then
    negChar v ::
      (if x = -32768 then from_u16 v c (wrapU 16 (-(intAsWidth 32 x)))
       else from_u16 v c (wrapU 16 (intAsWidth 16 (-x))))
  else from_u16 v c (wrapU 16 x)

/-- `from_i32_mut`: promotion to i64 at `i32::MIN`. -/
def from_i32 (v : ChineseVariant) (c : ChineseNumberCase)
    (m : ChineseNumberCountMethod) (x : Int) : List Char :=
  if x < 0 then
    negChar v ::
      (if x = -2147483648 then from_u32 v c m (wrapU 32 (-(intAsWidth 64 x)))
       else from_u32 v c m (wrapU 32 (intAsWidth 32 (-x))))
  else from_u32 v c m (wrapU 32 x)

/-- `from_i64_mut`: promotion to i128 at `i64::MIN`. -/
def from_i64 (v : ChineseVariant) (c : ChineseNumberCase)
    (m : ChineseNumberCountMethod) (x : Int) : List Char :=
  if x < 0 then
    negChar v ::
      (if x = -9223372036854775808
       then from_u64 v c m (wrapU 64 (-(intAsWidth 128 x)))
       else from_u64 v c m (wrapU 64 (intAsWidth 64 (-x))))
  else from_u64 v c m (wrapU 64 x)

/-- `from_i128_mut`: at `i128::MIN` the magnitude is
`-((value + 1) as i128) as u128 + 1` (wrap-safe); otherwise `-value as
u128`.  Inherits the `Option` of `from_u128`. -/
def from_i128 (v : ChineseVariant) (c : ChineseNumberCase)
    (m : ChineseNumberCountMethod) (x : Int) : Option (List Char) :=
  if x < 0 then
    (from_u128 v c m
        (if x = -(2 ^ 127)
         then (wrapU 128 (-(intAsWidth 128 (x + 1))) + 1) % 2 ^ 128
         else wrapU 128 (intAsWidth 128 (-x)))).map
      (fun s => negChar v :: s)
  else from_u128 v c m (wrapU 128 x)

/-! ## Parser entry points (translated from `lib.rs`) -/

/-- The `.replace(" ", "")` preprocessing of every parse entry point. -/
def stripSpaces (s : List Char) : List Char := s.filter (fun ch => ch ≠ ' ')

/-- `parse_chinese_number_to_u8` (window of 5 characters). -/
def parse_chinese_number_to_u8 (s : List Char) :
    Except ChineseNumberParseError Nat :=
  let cs := stripSpaces s
  match cs with
  | [] => .error .ChineseNumberEmpty
  | _ :: _ =>
    match chinese_digit_100_compat (cs.take 5) with
    | .ok n =>
      if n > 255 then .error .Overflow
      else if cs.length > 5 then .error (.ChineseNumberIncorrect 5)
      else .ok n
    | .error j => .error (.ChineseNumberIncorrect j)

/-- `parse_chinese_number_to_i8`.  Note: in the negative branch the source
reports the helper's error index unshifted (`char_index: err`), unlike the
32/64-bit entry points which add 1 for the sign. -/
def parse_chinese_number_to_i8 (s : List Char) :
    Except ChineseNumberParseError Int :=
  let cs := stripSpaces s
  match cs with
  | [] => .error .ChineseNumberEmpty
  | first :: rest =>
    if first ∈ negCharList then
      match rest with
      | [] => .error (.ChineseNumberIncorrect 1)
      | _ :: _ =>
        match chinese_digit_100_compat (rest.take 5) with
        | .ok n =>
          if n > 128 then .error .Underflow
          else if rest.length > 5 then .error (.ChineseNumberIncorrect 6)
          else .ok (intAsWidth 8 (-(intAsWidth 16 (n : Int))))
        | .error j => .error (.ChineseNumberIncorrect j)
    else
      match chinese_digit_100_compat (cs.take 5) with
      | .ok n =>
        if n > 127 then .error .Overflow
        else if cs.length > 5 then .error (.ChineseNumberIncorrect 5)
        else .ok (intAsWidth 8 (n : Int))
      | .error j => .error (.ChineseNumberIncorrect j)

/-- `parse_chinese_number_to_u16` (window of 15 characters). -/
def parse_chinese_number_to_u16 (s : List Char) :
    Except ChineseNumberParseError Nat :=
  let cs := stripSpaces s
  match cs with
  | [] => .error .ChineseNumberEmpty
  | _ :: _ =>
    match chinese_digit_10000_ten_thousand_compat (cs.take 15) with
    | .ok n =>
      if n > 65535 then .error .Overflow
      else if cs.length > 15 then .error (.ChineseNumberIncorrect 15)
      else .ok n
    | .error j => .error (.ChineseNumberIncorrect j)

/-- `parse_chinese_number_to_i16` (negative branch again reports the raw
helper index, like i8). -/
def parse_chinese_number_to_i16 (s : List Char) :
    Except ChineseNumberParseError Int :=
  let cs := stripSpaces s
  match cs with
  | [] => .error .ChineseNumberEmpty
  | first :: rest =>
    if first ∈ negCharList then
      match rest with
      | [] => .error (.ChineseNumberIncorrect 1)
      | _ :: _ =>
        match chinese_digit_10000_ten_thousand_compat (rest.take 15) with
        | .ok n =>
          if n > 32768 then .error .Underflow
          else if rest.length > 15 then .error (.ChineseNumberIncorrect 16)
          else .ok (intAsWidth 16 (-(intAsWidth 32 (n : Int))))
        | .error j => .error (.ChineseNumberIncorrect j)
    else
      match chinese_digit_10000_ten_thousand_compat (cs.take 15) with
      | .ok n =>
        if n > 32767 then .error .Overflow
        else if cs.length > 15 then .error (.ChineseNumberIncorrect 15)
        else .ok (intAsWidth 16 (n : Int))
      | .error j => .error (.ChineseNumberIncorrect j)

/-- `parse_chinese_number_to_u32` (windows 19 / 23). -/
def parse_chinese_number_to_u32 (m : ChineseNumberCountMethod)
    (s : List Char) : Except ChineseNumberParseError Nat :=
  let cs := stripSpaces s
  match cs with
  | [] => .error .ChineseNumberEmpty
  | _ :: _ =>
    match m with
    | Low =>
      match chinese_digit_1000000000_low_compat (cs.take 19) with
      | .ok n =>
        if n > 4294967295 then .error .Overflow
        else if cs.length > 19 then .error (.ChineseNumberIncorrect 19)
        else .ok n
      | .error j => .error (.ChineseNumberIncorrect j)
    | TenThousand | Middle | High =>
      match chinese_digit_100000000_ten_thousand_compat (cs.take 23) with
      | .ok n =>
        if n > 4294967295 then .error .Overflow
        else if cs.length > 23 then .error (.ChineseNumberIncorrect 23)
        else .ok n
      | .error j => .error (.ChineseNumberIncorrect j)

/-- `parse_chinese_number_to_i32` (negative branch shifts helper error
indices by 1 for the sign: `char_index: err + 1`). -/
def parse_chinese_number_to_i32 (m : ChineseNumberCountMethod)
    (s : List Char) : Except ChineseNumberParseError Int :=
  let cs := stripSpaces s
  match cs with
  | [] => .error .ChineseNumberEmpty
  | first :: rest =>
    if first ∈ negCharList then
      match rest with
      | [] => .error (.ChineseNumberIncorrect 1)
      | _ :: _ =>
        match m with
        | Low =>
          match chinese_digit_1000000000_low_compat (rest.take 19) with
          | .ok n =>
            if n > 2147483648 then .error .Underflow
            else if rest.length > 19 then .error (.ChineseNumberIncorrect 20)
            else .ok (intAsWidth 32 (-(intAsWidth 64 (n : Int))))
          | .error j => .error (.ChineseNumberIncorrect (j + 1))
        | TenThousand | Middle | High =>
          match chinese_digit_100000000_ten_thousand_compat (rest.take 23) with
          | .ok n =>
            if n > 2147483648 then .error .Underflow
            else if rest.length > 23 then .error (.ChineseNumberIncorrect 24)
            else .ok (intAsWidth 32 (-(intAsWidth 64 (n : Int))))
          | .error j => .error (.ChineseNumberIncorrect (j + 1))
    else
      match m with
      | Low =>
        match chinese_digit_1000000000_low_compat (cs.take 19) with
        | .ok n =>
          if n > 2147483647 then .error .Overflow
          else if cs.length > 19 then .error (.ChineseNumberIncorrect 19)
          else .ok (intAsWidth 32 (n : Int))
        | .error j => .error (.ChineseNumberIncorrect j)
      | TenThousand | Middle | High =>
        match chinese_digit_100000000_ten_thousand_compat (cs.take 23) with
        | .ok n =>
          if n > 2147483647 then .error .Overflow
          else if cs.length > 23 then .error (.ChineseNumberIncorrect 23)
          else .ok (intAsWidth 32 (n : Int))
        | .error j => .error (.ChineseNumberIncorrect j)

/-- `parse_chinese_number_to_u64` (windows 31 / 39 / 47; the Low arm's
overflow test compares a u64 against `u64::MAX` and can never fire, kept as
written). -/
def parse_chinese_number_to_u64 (m : ChineseNumberCountMethod)
    (s : List Char) : Except ChineseNumberParseError Nat :=
  let cs := stripSpaces s
  match cs with
  | [] => .error .ChineseNumberEmpty
  | _ :: _ =>
    match m with
    | Low =>
      match chinese_digit_1000000000000000_low_compat (cs.take 31) with
      | .ok n =>
        if n > 18446744073709551615 then .error .Overflow
        else if cs.length > 31 then .error (.ChineseNumberIncorrect 31)
        else .ok n
      | .error j => .error (.ChineseNumberIncorrect j)
    | TenThousand =>
      match chinese_digit_10000000000000000_ten_thousand_compat (cs.take 39) with
      | .ok n =>
        if n > 18446744073709551615 then .error .Overflow
        else if cs.length > 39 then .error (.ChineseNumberIncorrect 39)
        else .ok n
      | .error j => .error (.ChineseNumberIncorrect j)
    | Middle | High =>
      match chinese_digit_10000000000000000_middle_compat (cs.take 47) with
      | .ok n =>
        if n > 18446744073709551615 then .error .Overflow
        else if cs.length > 47 then .error (.ChineseNumberIncorrect 47)
        else .ok n
      | .error j => .error (.ChineseNumberIncorrect j)

/-- `parse_chinese_number_to_i64`.  The negative Low arm has no underflow
test in the source (its helper cannot exceed 10¹⁶); the other negative arms
test `> i64::MAX + 1`.  Negative-branch helper errors are shifted by 1. -/
def parse_chinese_number_to_i64 (m : ChineseNumberCountMethod)
    (s : List Char) : Except ChineseNumberParseError Int :=
  let cs := stripSpaces s
  match cs with
  | [] => .error .ChineseNumberEmpty
  | first :: rest =>
    if first ∈ negCharList then
      match rest with
      | [] => .error (.ChineseNumberIncorrect 1)
      | _ :: _ =>
        match m with
        | Low =>
          match chinese_digit_1000000000000000_low_compat (rest.take 31) with
          | .ok n =>
            if rest.length > 31 then .error (.ChineseNumberIncorrect 32)
            else .ok (-(intAsWidth 64 (n : Int)))
          | .error j => .error (.ChineseNumberIncorrect (j + 1))
        | TenThousand =>
          match chinese_digit_10000000000000000_ten_thousand_compat
              (rest.take 39) with
          | .ok n =>
            if n > 9223372036854775808 then .error .Underflow
            else if rest.length > 39 then .error (.ChineseNumberIncorrect 40)
            else .ok (intAsWidth 64 (-(intAsWidth 128 (n : Int))))
          | .error j => .error (.ChineseNumberIncorrect (j + 1))
        | Middle | High =>
          match chinese_digit_10000000000000000_middle_compat
              (rest.take 47) with
          | .ok n =>
            if n > 9223372036854775808 then .error .Underflow
            else if rest.length > 47 then .error (.ChineseNumberIncorrect 48)
            else .ok (intAsWidth 64 (-(intAsWidth 128 (n : Int))))
          | .error j => .error (.ChineseNumberIncorrect (j + 1))
    else
      match m with
      | Low =>
        match chinese_digit_1000000000000000_low_compat (cs.take 31) with
        | .ok n =>
          if n > 9223372036854775807 then .error .Overflow
          else if cs.length > 31 then .error (.ChineseNumberIncorrect 31)
          else .ok (intAsWidth 64 (n : Int))
        | .error j => .error (.ChineseNumberIncorrect j)
      | TenThousand =>
        match chinese_digit_10000000000000000_ten_thousand_compat
            (cs.take 39) with
        | .ok n =>
          if n > 9223372036854775807 then .error .Overflow
          else if cs.length > 39 then .error (.ChineseNumberIncorrect 39)
          else .ok (intAsWidth 64 (n : Int))
        | .error j => .error (.ChineseNumberIncorrect j)
      | Middle | High =>
        match chinese_digit_10000000000000000_middle_compat (cs.take 47) with
        | .ok n =>
          if n > 9223372036854775807 then .error .Overflow
          else if cs.length > 47 then .error (.ChineseNumberIncorrect 47)
          else .ok (intAsWidth 64 (n : Int))
        | .error j => .error (.ChineseNumberIncorrect j)

/-- `parse_chinese_number_to_i128` is `unimplemented!()` in the source: the
call panics for every input, modelled as the constant `none`. -/
def parse_chinese_number_to_i128 (_m : ChineseNumberCountMethod)
    (_s : List Char) : Option (Except ChineseNumberParseError Int) :=
  none

/-- `parse_chinese_number_to_u128` is `unimplemented!()` in the source. -/
def parse_chinese_number_to_u128 (_m : ChineseNumberCountMethod)
    (_s : List Char) : Option (Except ChineseNumberParseError Nat) :=
  none

/-! ## Parser / formatter inverse: the group level -/

/-- A list on which the group parser consumes nothing: empty, or headed by a
character that is neither a zero connector, a digit, nor a small unit. -/
def groupStopper : List Char → Prop
  | [] => True
  | ch :: _ =>
    isZeroChar ch = false ∧ charToDigit ch = none ∧ charToSmallUnit ch = none

/-- A list on which the level-`k` cascade parser consumes nothing: a group
stopper whose head, if a large unit, has index at least `k`. -/
def stopperAt (k : Nat) : List Char → Prop
  | [] => True
  | ch :: _ =>
    isZeroChar ch = false ∧ charToDigit ch = none ∧
      charToSmallUnit ch = none ∧ ∀ i, charToLargeUnit ch = some i → k ≤ i

theorem stopperAt_mono {j k : Nat} (h : j ≤ k) {s : List Char}
    (hs : stopperAt k s) : stopperAt j s := by
  cases s with
  | nil => trivial
  | cons ch s =>
    obtain ⟨h1, h2, h3, h4⟩ := hs
    exact ⟨h1, h2, h3, fun i hi => le_trans h (h4 i hi)⟩

theorem groupStopper_of_stopperAt {k : Nat} {s : List Char}
    (hs : stopperAt k s) : groupStopper s := by
  cases s with
  | nil => trivial
  | cons ch s =>
    obtain ⟨h1, h2, h3, _⟩ := hs
    exact ⟨h1, h2, h3⟩

theorem zeroDigit_isZero (v : ChineseVariant) (c : ChineseNumberCase) :
    isZeroChar (digitChar v c 0) = true := by
  rw [digitChar_zero]; rfl

theorem pga_zero {ch : Char} (h : isZeroChar ch = true) (rest : List Char)
    (lastE acc : Nat) :
    parseGroupAux (ch :: rest) lastE acc = parseGroupAux rest lastE acc := by
  simp [parseGroupAux, h]

theorem pga_pair {ch u : Char} {d e : Nat} (hz : isZeroChar ch = false)
    (hd : charToDigit ch = some d) (hu : charToSmallUnit u = some e)
    {lastE : Nat} (he : e < lastE) (rest2 : List Char) (acc : Nat) :
    parseGroupAux (ch :: u :: rest2) lastE acc =
      parseGroupAux rest2 e (acc + d * 10 ^ e) := by
  simp [parseGroupAux, hz, hd, hu, he]

theorem pga_stopList {s : List Char} (h : groupStopper s) (lastE acc : Nat) :
    parseGroupAux s lastE acc = (acc, s) := by
  cases s with
  | nil => rfl
  | cons ch rest =>
    obtain ⟨h1, h2, h3⟩ := h
    simp [parseGroupAux, h1, h2, h3]

theorem pga_ones {ch : Char} {d : Nat} (hz : isZeroChar ch = false)
    (hd : charToDigit ch = some d) {rest : List Char}
    (hrest : groupStopper rest) (lastE acc : Nat) :
    parseGroupAux (ch :: rest) lastE acc = (acc + d, rest) := by
  cases rest with
  | nil => simp [parseGroupAux, hz, hd]
  | cons u rest2 =>
    obtain ⟨_, _, h3⟩ := hrest
    simp [parseGroupAux, hz, hd, h3]

theorem pga_soloTens {ch : Char} (hz : isZeroChar ch = false)
    (hd : charToDigit ch = none) (hu : charToSmallUnit ch = some 1)
    {lastE : Nat} (hl : 1 < lastE) (rest : List Char) :
    parseGroupAux (ch :: rest) lastE 0 = parseGroupAux rest 1 10 := by
  simp [parseGroupAux, hz, hd, hu, hl]

theorem pga_zeroT (v : ChineseVariant) (c : ChineseNumberCase)
    (rest : List Char) (lastE acc : Nat) :
    parseGroupAux (digitChar v c 0 :: rest) lastE acc =
      parseGroupAux rest lastE acc :=
  pga_zero (zeroDigit_isZero v c) rest lastE acc

theorem pga_pairT (v : ChineseVariant) (c : ChineseNumberCase) (d e : Nat)
    (hd1 : 1 ≤ d) (hd9 : d ≤ 9) (he1 : 1 ≤ e) (he3 : e ≤ 3) {lastE : Nat}
    (he : e < lastE) (rest2 : List Char) (acc : Nat) :
    parseGroupAux (digitChar v c d :: smallUnitChar v c e :: rest2) lastE acc =
      parseGroupAux rest2 e (acc + d * 10 ^ e) :=
  pga_pair (isZeroChar_digitChar v c d hd1 hd9) (charToDigit_digitChar v c d hd1 hd9)
    (charToSmallUnit_smallUnitChar v c e he1 he3) he rest2 acc

theorem pga_onesT (v : ChineseVariant) (c : ChineseNumberCase) (d : Nat)
    (hd1 : 1 ≤ d) (hd9 : d ≤ 9) {rest : List Char}
    (hrest : groupStopper rest) (lastE acc : Nat) :
    parseGroupAux (digitChar v c d :: rest) lastE acc = (acc + d, rest) :=
  pga_ones (isZeroChar_digitChar v c d hd1 hd9) (charToDigit_digitChar v c d hd1 hd9)
    hrest lastE acc

theorem pga_soloT (v : ChineseVariant) (c : ChineseNumberCase) {lastE : Nat}
    (hl : 1 < lastE) (rest : List Char) :
    parseGroupAux (smallUnitChar v c 1 :: rest) lastE 0 =
      parseGroupAux rest 1 10 :=
  pga_soloTens (isZeroChar_smallUnitChar v c 1) (charToDigit_smallUnitChar v c 1)
    (charToSmallUnit_smallUnitChar v c 1 (by norm_num) (by norm_num)) hl rest

set_option maxHeartbeats 2000000 in
theorem parseGroup_emitGroupD (v : ChineseVariant) (c : ChineseNumberCase)
    (lead : Bool) (th h t o : Nat) (rest : List Char)
    (hth : th ≤ 9) (hh : h ≤ 9) (ht : t ≤ 9) (ho : o ≤ 9)
    (hpos : 0 < th + h + t + o) (hrest : groupStopper rest) :
    parseGroup (emitGroupD v c lead th h t o ++ rest) =
      (1000 * th + 100 * h + 10 * t + o, rest) := by
  unfold parseGroup
  by_cases h1 : th = 0 <;> by_cases h2 : h = 0 <;> by_cases h3 : t = 0 <;>
    by_cases h4 : o = 0 <;>
    by_cases hA : t = 1 <;> by_cases hB : lead = false <;>
    try (exfalso; omega)
  all_goals
    simp [emitGroupD, h1, h2, h3, h4, hA, hB, List.append_assoc]
  all_goals
    repeat first
      | rw [pga_zeroT]
      | rw [pga_pairT v c th 3 (by omega) (by omega) (by norm_num) (by norm_num) (by norm_num)]
      | rw [pga_pairT v c h 2 (by omega) (by omega) (by norm_num) (by norm_num) (by norm_num)]
      | rw [pga_pairT v c t 1 (by omega) (by omega) (by norm_num) (by norm_num) (by norm_num)]
      | rw [pga_pairT v c 1 1 (by norm_num) (by norm_num) (by norm_num) (by norm_num) (by norm_num)]
      | rw [pga_soloT v c (by norm_num)]
      | rw [pga_onesT v c o (by omega) (by omega) hrest]
      | rw [pga_stopList hrest]
  all_goals try rfl
  all_goals simp only [Prod.mk.injEq, and_true]
  all_goals first
    | trivial
    | ring
    | omega

/-- Value form of the group inverse: parsing an emitted group recovers the
value and leaves the stopper suffix untouched. -/
theorem parseGroup_emitGroup (v : ChineseVariant) (c : ChineseNumberCase)
    (lead : Bool) (n : Nat) (rest : List Char) (h1 : 1 ≤ n) (h2 : n < 10000)
    (hrest : groupStopper rest) :
    parseGroup (emitGroup v c lead n ++ rest) = (n, rest) := by
  have e1 : n % 10 + 10 * (n / 10) = n := Nat.mod_add_div n 10
  have e2 : n / 10 % 10 + 10 * (n / 10 / 10) = n / 10 := Nat.mod_add_div _ 10
  have e3 : n / 10 / 10 = n / 100 := by rw [Nat.div_div_eq_div_mul]
  have e4 : n / 100 % 10 + 10 * (n / 100 / 10) = n / 100 := Nat.mod_add_div _ 10
  have e5 : n / 100 / 10 = n / 1000 := by rw [Nat.div_div_eq_div_mul]
  have e6 : n / 1000 % 10 = n / 1000 := Nat.mod_eq_of_lt (by omega)
  rw [emitGroup,
    parseGroup_emitGroupD v c lead (n / 1000 % 10) (n / 100 % 10)
      (n / 10 % 10) (n % 10) rest (by omega) (by omega) (by omega) (by omega)
      (by omega) hrest]
  have : 1000 * (n / 1000 % 10) + 100 * (n / 100 % 10) + 10 * (n / 10 % 10) +
      n % 10 = n := by omega
  rw [this]

/-! ## Parser / formatter inverse: the cascade level -/

theorem unitExp_zero (m : ChineseNumberCountMethod) : unitExp m 0 = 4 := by
  cases m <;> rfl

/-- Unfolding of `renderCascade` when no unit fits. -/
theorem renderCascade_none {m : ChineseNumberCountMethod} {n : Nat}
    (h : largestUnit m n = none) (v : ChineseVariant) (c : ChineseNumberCase)
    (lead : Bool) : renderCascade m v c n lead = emitGroup v c lead n := by
  rw [renderCascade, h]

/-- Unfolding of `renderCascade` at its largest unit. -/
theorem renderCascade_some {m : ChineseNumberCountMethod} {n i : Nat}
    (h : largestUnit m n = some i) (v : ChineseVariant) (c : ChineseNumberCase)
    (lead : Bool) :
    renderCascade m v c n lead =
      renderCascade m v c (n / 10 ^ unitExp m i) lead ++
        largeUnitChar v i ::
          (if n % 10 ^ unitExp m i = 0 then []
           else
             (if 10 * (n % 10 ^ unitExp m i) < 10 ^ unitExp m i
              then [digitChar v c 0] else []) ++
             renderCascade m v c (n % 10 ^ unitExp m i) true) := by
  rw [renderCascade, h]

theorem unitsDesc_lt (m : ChineseNumberCountMethod) :
    ∀ k, ∀ p ∈ unitsDesc m k, p.1 < k := by
  intro k
  induction k with
  | zero => intro p hp; simp [unitsDesc] at hp
  | succ k ih =>
    intro p hp
    simp only [unitsDesc, List.mem_cons] at hp
    rcases hp with rfl | hp
    · omega
    · exact lt_trans (ih p hp) (by omega)

/-- The cascade parser ignores a leading zero connector. -/
theorem parseAt_zeroSkip (us : List (Nat × Nat)) {z : Char}
    (hz : isZeroChar z = true) (s : List Char) :
    parseAt us (z :: s) = parseAt us s := by
  induction us with
  | nil => exact pga_zero hz s 4 0
  | cons p us ih =>
    obtain ⟨i, e⟩ := p
    simp only [parseAt, ih]

/-- On a level-`k` stopper the cascade parser with units below `k` consumes
nothing. -/
theorem parseAt_stop {k : Nat} (us : List (Nat × Nat))
    (hus : ∀ p ∈ us, p.1 < k) {s : List Char} (hs : stopperAt k s) :
    parseAt us s = (0, s) := by
  induction us with
  | nil => exact pga_stopList (groupStopper_of_stopperAt hs) 4 0
  | cons p us ih =>
    obtain ⟨i, e⟩ := p
    have hrec := ih fun p hp => hus p (List.mem_cons_of_mem _ hp)
    simp only [parseAt, hrec]
    cases s with
    | nil => rfl
    | cons ch s2 =>
      obtain ⟨_, _, _, h4⟩ := hs
      have hne : ¬ charToLargeUnit ch = some i := by
        intro hc
        have := h4 i hc
        have := hus (i, e) (List.mem_cons_self _ _)
        omega
      simp [hne]

/-- The level-`k` stopper whose head is the unit glyph `k` itself. -/
theorem stopperAt_unitHead (v : ChineseVariant) (k : Nat) (hk : k ≤ 11)
    (tail : List Char) : stopperAt k (largeUnitChar v k :: tail) := by
  refine ⟨isZeroChar_largeUnitChar v k, charToDigit_largeUnitChar v k,
    charToSmallUnit_largeUnitChar v k, ?_⟩
  intro i hi
  rw [charToLargeUnit_largeUnitChar v k hk] at hi
  cases hi
  exact le_refl k

/-- Main inverse theorem: parsing the cascade rendering of `1 ≤ n <
10^(unitExp m k)` with the ladder of units below `k` recovers `n` exactly
and leaves a level-`k` stopper suffix untouched. -/
theorem parseAt_renderCascade (m : ChineseNumberCountMethod) :
    ∀ k : Nat, k ≤ 12 → ∀ (n : Nat) (v : ChineseVariant)
      (c : ChineseNumberCase) (lead : Bool) (rest : List Char),
      1 ≤ n → n < 10 ^ unitExp m k → stopperAt k rest →
      parseAt (unitsDesc m k) (renderCascade m v c n lead ++ rest) =
        (n, rest) := by
  intro k
  induction k with
  | zero =>
    intro _ n v c lead rest h1 h2 hrest
    rw [unitExp_zero] at h2
    rw [renderCascade_none (largestUnit_none_of_lt h2)]
    exact parseGroup_emitGroup v c lead n rest h1 h2
      (groupStopper_of_stopperAt hrest)
  | succ k ih =>
    intro hk12 n v c lead rest h1 h2 hrest
    by_cases hn : n < 10 ^ unitExp m k
    · have hmain := ih (by omega) n v c lead rest h1 hn
        (stopperAt_mono (by omega) hrest)
      show parseAt ((k, unitExp m k) :: unitsDesc m k) _ = _
      simp only [parseAt, hmain]
      cases rest with
      | nil => rfl
      | cons ch s2 =>
        obtain ⟨_, _, _, h4⟩ := hrest
        have hne : ¬ charToLargeUnit ch = some k := by
          intro hc
          have := h4 k hc
          omega
        simp [hne]
    · push_neg at hn
      have hlu : largestUnit m n = some k := largestUnit_eq_some hn h2 (by omega)
      rw [renderCascade_some hlu]
      have hepos : (0 : Nat) < 10 ^ unitExp m k :=
        Nat.pos_pow_of_pos _ (by norm_num)
      have hq1 : 1 ≤ n / 10 ^ unitExp m k := (Nat.one_le_div_iff hepos).mpr hn
      have hq2 : n / 10 ^ unitExp m k < 10 ^ unitExp m k := by
        have hstep : unitExp m (k + 1) ≤ 2 * unitExp m k :=
          unitExp_succ_le_two_mul m k
        have : n < 10 ^ (unitExp m k) * 10 ^ (unitExp m k) := by
          calc n < 10 ^ unitExp m (k + 1) := h2
            _ ≤ 10 ^ (2 * unitExp m k) :=
              Nat.pow_le_pow_right (by norm_num) hstep
            _ = 10 ^ (unitExp m k) * 10 ^ (unitExp m k) := by
              rw [← pow_add]; congr 1; omega
        exact Nat.div_lt_of_lt_mul this
      show parseAt ((k, unitExp m k) :: unitsDesc m k) _ = _
      rw [List.append_assoc, List.cons_append]
      have hstep1 := ih (by omega) (n / 10 ^ unitExp m k) v c lead
        (largeUnitChar v k ::
          ((if n % 10 ^ unitExp m k = 0 then []
            else
              (if 10 * (n % 10 ^ unitExp m k) < 10 ^ unitExp m k
               then [digitChar v c 0] else []) ++
              renderCascade m v c (n % 10 ^ unitExp m k) true) ++ rest))
        hq1 hq2 (stopperAt_unitHead v k (by omega) _)
      simp only [parseAt, hstep1, charToLargeUnit_largeUnitChar v k
        (show k ≤ 11 by omega), eq_self_iff_true, if_true]
      have hs : n / 10 ^ unitExp m k * 10 ^ unitExp m k +
          n % 10 ^ unitExp m k = n := Nat.div_add_mod' n _
      by_cases hr : n % 10 ^ unitExp m k = 0
      · rw [if_pos hr]
        simp only [List.nil_append]
        rw [parseAt_stop (unitsDesc m k) (unitsDesc_lt m k)
          (stopperAt_mono (by omega) hrest)]
        rw [hr, Nat.add_zero] at hs
        simp [hs]
      · rw [if_neg hr]
        have hr1 : 1 ≤ n % 10 ^ unitExp m k := by omega
        have hr2 : n % 10 ^ unitExp m k < 10 ^ unitExp m k :=
          Nat.mod_lt _ hepos
        have hrest' : stopperAt k rest := stopperAt_mono (by omega) hrest
        have htail := ih (by omega) (n % 10 ^ unitExp m k) v c true rest
          hr1 hr2 hrest'
        by_cases hz : 10 * (n % 10 ^ unitExp m k) < 10 ^ unitExp m k
        · rw [if_pos hz]
          simp only [List.cons_append, List.nil_append, List.append_assoc]
          rw [parseAt_zeroSkip _ (zeroDigit_isZero v c), htail]
          simp [hs]
        · rw [if_neg hz]
          simp only [List.nil_append]
          rw [htail]
          simp [hs]

/-! ## Length bounds: the rendering of `n < 10^K` fits in `2K - 1` chars -/

set_option maxHeartbeats 1600000 in
theorem emitGroupD_length_eq (v : ChineseVariant) (c : ChineseNumberCase)
    (lead : Bool) (th h t o : Nat) :
    (emitGroupD v c lead th h t o).length =
      (if th ≠ 0 then 2 else 0) + (if h ≠ 0 then 2 else 0) +
      (if t ≠ 0 then
        (if th ≠ 0 ∧ h = 0 then 1 else 0) +
        (if t = 1 ∧ th = 0 ∧ h = 0 ∧ lead = false then 1 else 2)
       else 0) +
      (if o ≠ 0 then (if (th ≠ 0 ∨ h ≠ 0) ∧ t = 0 then 1 else 0) + 1
       else 0) := by
  unfold emitGroupD
  split_ifs <;>
    simp only [List.length_append, List.length_cons, List.length_nil,
      List.nil_append, List.append_nil] <;>
    omega

theorem digitPieces_le_seven (lead : Bool) (a b d g : Nat) :
    (if a ≠ 0 then 2 else 0) + (if b ≠ 0 then 2 else 0) +
      (if d ≠ 0 then
        (if a ≠ 0 ∧ b = 0 then 1 else 0) +
        (if d = 1 ∧ a = 0 ∧ b = 0 ∧ lead = false then 1 else 2)
       else 0) +
      (if g ≠ 0 then (if (a ≠ 0 ∨ b ≠ 0) ∧ d = 0 then 1 else 0) + 1
       else 0) ≤ 7 := by
  split_ifs <;> omega

theorem emitGroup_length_le (v : ChineseVariant) (c : ChineseNumberCase)
    (lead : Bool) (n j : Nat) (hj : 1 ≤ j) (hn : n < 10 ^ j) :
    (emitGroup v c lead n).length ≤ 2 * j - 1 := by
  rw [emitGroup, emitGroupD_length_eq]
  rcases Nat.lt_or_ge j 4 with hj4 | hj4
  · interval_cases j <;> norm_num at hn
    · have e1 : n / 1000 % 10 = 0 := by omega
      have e2 : n / 100 % 10 = 0 := by omega
      have e3 : n / 10 % 10 = 0 := by omega
      simp only [e1, e2, e3]
      split_ifs <;> omega
    · have e1 : n / 1000 % 10 = 0 := by omega
      have e2 : n / 100 % 10 = 0 := by omega
      simp only [e1, e2]
      split_ifs <;> omega
    · have e1 : n / 1000 % 10 = 0 := by omega
      simp only [e1]
      split_ifs <;> omega
  · calc (if n / 1000 % 10 ≠ 0 then 2 else 0) +
        (if n / 100 % 10 ≠ 0 then 2 else 0) +
        (if n / 10 % 10 ≠ 0 then
          (if n / 1000 % 10 ≠ 0 ∧ n / 100 % 10 = 0 then 1 else 0) +
          (if n / 10 % 10 = 1 ∧ n / 1000 % 10 = 0 ∧ n / 100 % 10 = 0 ∧
              lead = false then 1 else 2)
         else 0) +
        (if n % 10 ≠ 0 then
          (if (n / 1000 % 10 ≠ 0 ∨ n / 100 % 10 ≠ 0) ∧ n / 10 % 10 = 0
           then 1 else 0) + 1
         else 0) ≤ 7 :=
        digitPieces_le_seven lead _ _ _ _
      _ ≤ 2 * j - 1 := by omega

theorem renderCascade_length (m : ChineseNumberCountMethod)
    (v : ChineseVariant) (c : ChineseNumberCase) :
    ∀ n lead K, 1 ≤ n → n < 10 ^ K →
      (renderCascade m v c n lead).length ≤ 2 * K - 1 := by
  intro n
  induction n using Nat.strong_induction_on with
  | _ n ih =>
    intro lead K h1 hK
    have hK1 : 1 ≤ K := by
      by_contra hc
      push_neg at hc
      interval_cases K
      simp at hK
      omega
    cases hlu : largestUnit m n with
    | none =>
      rw [renderCascade_none hlu]
      exact emitGroup_length_le v c lead n K hK1 hK
    | some i =>
      rw [renderCascade_some hlu]
      obtain ⟨hle, hi11⟩ := largestUnit_some hlu
      have he4 : 4 ≤ unitExp m i := unitExp_ge_four m i
      have hepos : (0 : Nat) < 10 ^ unitExp m i :=
        Nat.pos_pow_of_pos _ (by norm_num)
      have heK : unitExp m i < K := by
        by_contra hc
        push_neg at hc
        have : (10 : Nat) ^ K ≤ 10 ^ unitExp m i :=
          Nat.pow_le_pow_right (by norm_num) hc
        omega
      have hq1 : 1 ≤ n / 10 ^ unitExp m i := (Nat.one_le_div_iff hepos).mpr hle
      have hqK : n / 10 ^ unitExp m i < 10 ^ (K - unitExp m i) := by
        apply Nat.div_lt_of_lt_mul
        calc n < 10 ^ K := hK
          _ = 10 ^ unitExp m i * 10 ^ (K - unitExp m i) := by
            rw [← pow_add]
            congr 1
            omega
      have hqlt : n / 10 ^ unitExp m i < n :=
        Nat.div_lt_self (by omega) (by
          have : (10 : Nat) ^ 4 ≤ 10 ^ unitExp m i :=
            Nat.pow_le_pow_right (by norm_num) he4
          norm_num at this ⊢
          omega)
      have hqlen := ih _ hqlt lead (K - unitExp m i) hq1 hqK
      by_cases hr : n % 10 ^ unitExp m i = 0
      · rw [if_pos hr]
        simp only [List.length_append, List.length_cons, List.length_nil]
        omega
      · rw [if_neg hr]
        have hrlt : n % 10 ^ unitExp m i < n := lt_of_lt_of_le
          (Nat.mod_lt _ hepos) hle
        by_cases hz : 10 * (n % 10 ^ unitExp m i) < 10 ^ unitExp m i
        · have hrK : n % 10 ^ unitExp m i < 10 ^ (unitExp m i - 1) := by
            have h10 : (10 : Nat) ^ unitExp m i =
                10 * 10 ^ (unitExp m i - 1) := by
              rw [← pow_succ']
              congr 1
              omega
            omega
          have hrlen := ih _ hrlt true (unitExp m i - 1) (by omega) hrK
          rw [if_pos hz]
          simp only [List.length_append, List.length_cons, List.length_nil]
          omega
        · have hrK : n % 10 ^ unitExp m i < 10 ^ unitExp m i :=
            Nat.mod_lt _ hepos
          have hrlen := ih _ hrlt true (unitExp m i) (by omega) hrK
          rw [if_neg hz]
          simp only [List.length_append, List.length_cons, List.length_nil]
          omega

/-! ## Every rendered character is a table glyph -/

/-- A character recognised by the reverse-lookup tables. -/
def goodChar (ch : Char) : Bool :=
  (charToDigit ch).isSome || (charToSmallUnit ch).isSome ||
    (charToLargeUnit ch).isSome

theorem goodChar_digitChar (v : ChineseVariant) (c : ChineseNumberCase)
    (d : Nat) : goodChar (digitChar v c d) = true := by
  cases v <;> cases c <;>
    rcases d with _ | _ | _ | _ | _ | _ | _ | _ | _ | d <;> rfl

theorem goodChar_smallUnitChar (v : ChineseVariant) (c : ChineseNumberCase)
    (e : Nat) : goodChar (smallUnitChar v c e) = true := by
  cases v <;> cases c <;> rcases e with _ | _ | _ | e <;> rfl

theorem goodChar_largeUnitChar (v : ChineseVariant) (i : Nat) :
    goodChar (largeUnitChar v i) = true := by
  cases v <;>
    rcases i with _ | _ | _ | _ | _ | _ | _ | _ | _ | _ | _ | i <;> rfl

theorem goodChar_ne_space {ch : Char} (h : goodChar ch = true) : ch ≠ ' ' := by
  intro hc
  subst hc
  exact absurd h (by decide)

theorem goodChar_not_neg {ch : Char} (h : goodChar ch = true) :
    ch ∉ negCharList := by
  intro hc
  have h2 : ch = '負' ∨ ch = '负' := by simpa [negCharList] using hc
  rcases h2 with rfl | rfl
  · exact absurd h (by decide)
  · exact absurd h (by decide)

theorem mem_ite_nil {P : Prop} [Decidable P] {L : List Char} {ch : Char}
    (h : ch ∈ if P then L else []) : ch ∈ L := by
  split at h
  · exact h
  · simp at h

theorem emitGroupD_goodChars (v : ChineseVariant) (c : ChineseNumberCase)
    (lead : Bool) (th h t o : Nat) :
    ∀ ch ∈ emitGroupD v c lead th h t o, goodChar ch = true := by
  intro ch hch
  unfold emitGroupD at hch
  simp only [List.mem_append] at hch
  rcases hch with ((h1 | h1) | h1) | h1
  · have h2 := mem_ite_nil h1
    simp only [List.mem_cons, List.not_mem_nil, or_false] at h2
    rcases h2 with rfl | rfl
    · exact goodChar_digitChar v c th
    · exact goodChar_smallUnitChar v c 3
  · have h2 := mem_ite_nil h1
    simp only [List.mem_cons, List.not_mem_nil, or_false] at h2
    rcases h2 with rfl | rfl
    · exact goodChar_digitChar v c h
    · exact goodChar_smallUnitChar v c 2
  · have h2 := mem_ite_nil h1
    simp only [List.mem_append] at h2
    rcases h2 with h2 | h2
    · have h3 := mem_ite_nil h2
      simp only [List.mem_cons, List.not_mem_nil, or_false] at h3
      exact h3 ▸ goodChar_digitChar v c 0
    · split at h2
      · simp only [List.mem_cons, List.not_mem_nil, or_false] at h2
        exact h2 ▸ goodChar_smallUnitChar v c 1
      · simp only [List.mem_cons, List.not_mem_nil, or_false] at h2
        rcases h2 with rfl | rfl
        · exact goodChar_digitChar v c t
        · exact goodChar_smallUnitChar v c 1
  · have h2 := mem_ite_nil h1
    simp only [List.mem_append] at h2
    rcases h2 with h2 | h2
    · have h3 := mem_ite_nil h2
      simp only [List.mem_cons, List.not_mem_nil, or_false] at h3
      exact h3 ▸ goodChar_digitChar v c 0
    · simp only [List.mem_cons, List.not_mem_nil, or_false] at h2
      exact h2 ▸ goodChar_digitChar v c o

theorem renderCascade_goodChars (m : ChineseNumberCountMethod)
    (v : ChineseVariant) (c : ChineseNumberCase) :
    ∀ n lead, ∀ ch ∈ renderCascade m v c n lead, goodChar ch = true := by
  intro n
  induction n using Nat.strong_induction_on with
  | _ n ih =>
    intro lead ch hch
    cases hlu : largestUnit m n with
    | none =>
      rw [renderCascade_none hlu] at hch
      exact emitGroupD_goodChars v c lead _ _ _ _ ch hch
    | some i =>
      rw [renderCascade_some hlu] at hch
      obtain ⟨hle, hi11⟩ := largestUnit_some hlu
      have he4 : 4 ≤ unitExp m i := unitExp_ge_four m i
      have hepos : (0 : Nat) < 10 ^ unitExp m i :=
        Nat.pos_pow_of_pos _ (by norm_num)
      have h10 : (10 : Nat) ≤ 10 ^ unitExp m i := by
        calc (10 : Nat) = 10 ^ 1 := by norm_num
          _ ≤ 10 ^ unitExp m i := Nat.pow_le_pow_right (by norm_num) (by omega)
      have hqlt : n / 10 ^ unitExp m i < n :=
        Nat.div_lt_self (by omega) (by omega)
      have hrlt : n % 10 ^ unitExp m i < n :=
        lt_of_lt_of_le (Nat.mod_lt _ hepos) hle
      simp only [List.mem_append, List.mem_cons] at hch
      rcases hch with hch | hch | hch
      · exact ih _ hqlt lead ch hch
      · exact hch ▸ goodChar_largeUnitChar v i
      · split at hch
        · simp at hch
        · simp only [List.mem_append] at hch
          rcases hch with hch | hch
          · have h3 := mem_ite_nil hch
            simp only [List.mem_cons, List.not_mem_nil, or_false] at h3
            exact h3 ▸ goodChar_digitChar v c 0
          · exact ih _ hrlt true ch hch

theorem emitUnsigned_goodChars (m : ChineseNumberCountMethod)
    (v : ChineseVariant) (c : ChineseNumberCase) (n : Nat) :
    ∀ ch ∈ emitUnsigned m v c n, goodChar ch = true := by
  intro ch hch
  unfold emitUnsigned at hch
  split at hch
  · simp only [List.mem_cons, List.not_mem_nil, or_false] at hch
    exact hch ▸ goodChar_digitChar v c 0
  · exact renderCascade_goodChars m v c n _ ch hch

/-- Space-stripping leaves a fully recognised string untouched. -/
theorem stripSpaces_eq_self {l : List Char}
    (h : ∀ ch ∈ l, goodChar ch = true) : stripSpaces l = l := by
  unfold stripSpaces
  apply List.filter_eq_self.mpr
  intro a ha
  simp only [ne_eq, decide_not]
  have := goodChar_ne_space (h a ha)
  simp [this]

theorem largestUnitAux_ne_none {m : ChineseNumberCountMethod} {n i : Nat}
    {L : List Nat} (hmem : i ∈ L) (hle : 10 ^ unitExp m i ≤ n) :
    largestUnitAux m n L ≠ none := by
  induction L with
  | nil => simp at hmem
  | cons j L ihl =>
    simp only [largestUnitAux]
    split
    · simp
    · rcases List.mem_cons.mp hmem with rfl | hmem'
      · rename_i hc
        exact absurd hle hc
      · exact ihl hmem'

theorem largestUnit_none_lt {m : ChineseNumberCountMethod} {n : Nat}
    (h : largestUnit m n = none) : n < 10 ^ 4 := by
  by_contra hc
  push_neg at hc
  refine largestUnitAux_ne_none (m := m) (i := 0) (by simp [unitIdxDesc]) ?_ h
  rw [unitExp_zero]
  exact hc

theorem emitGroup_ne_nil (v : ChineseVariant) (c : ChineseNumberCase)
    (lead : Bool) (n : Nat) (h1 : 1 ≤ n) (h2 : n < 10000) :
    emitGroup v c lead n ≠ [] := by
  intro hcontra
  have hp := parseGroup_emitGroup v c lead n [] h1 h2 trivial
  rw [hcontra, List.nil_append] at hp
  have hnil : parseGroup ([] : List Char) = (0, []) := rfl
  rw [hnil] at hp
  have := congrArg Prod.fst hp
  simp at this
  omega

theorem renderCascade_ne_nil (m : ChineseNumberCountMethod)
    (v : ChineseVariant) (c : ChineseNumberCase) (n : Nat) (lead : Bool)
    (h1 : 1 ≤ n) : renderCascade m v c n lead ≠ [] := by
  cases hlu : largestUnit m n with
  | none =>
    rw [renderCascade_none hlu]
    exact emitGroup_ne_nil v c lead n h1 (largestUnit_none_lt hlu)
  | some i =>
    rw [renderCascade_some hlu]
    simp

/-! ## High and Middle renderings agree below 10²⁴ -/

theorem largestUnit_high_eq_middle {n : Nat} (h : n < 10 ^ 24) :
    largestUnit High n = largestUnit Middle n := by
  rcases Nat.lt_or_ge n (10 ^ 4) with h4 | h4
  · rw [largestUnit_none_of_lt h4, largestUnit_none_of_lt h4]
  rcases Nat.lt_or_ge n (10 ^ 8) with h8 | h8
  · rw [largestUnit_eq_some (m := High) (k := 0)
        (show 10 ^ unitExp High 0 ≤ n from h4)
        (show n < 10 ^ unitExp High (0 + 1) from h8) (by norm_num),
      largestUnit_eq_some (m := Middle) (k := 0)
        (show 10 ^ unitExp Middle 0 ≤ n from h4)
        (show n < 10 ^ unitExp Middle (0 + 1) from h8) (by norm_num)]
  rcases Nat.lt_or_ge n (10 ^ 16) with h16 | h16
  · rw [largestUnit_eq_some (m := High) (k := 1)
        (show 10 ^ unitExp High 1 ≤ n from h8)
        (show n < 10 ^ unitExp High (1 + 1) from h16) (by norm_num),
      largestUnit_eq_some (m := Middle) (k := 1)
        (show 10 ^ unitExp Middle 1 ≤ n from h8)
        (show n < 10 ^ unitExp Middle (1 + 1) from h16) (by norm_num)]
  · rw [largestUnit_eq_some (m := High) (k := 2)
        (show 10 ^ unitExp High 2 ≤ n from h16)
        (show n < 10 ^ unitExp High (2 + 1) by
          calc n < 10 ^ 24 := h
            _ < 10 ^ 32 := by norm_num
            _ = 10 ^ unitExp High (2 + 1) := rfl) (by norm_num),
      largestUnit_eq_some (m := Middle) (k := 2)
        (show 10 ^ unitExp Middle 2 ≤ n from h16)
        (show n < 10 ^ unitExp Middle (2 + 1) from h) (by norm_num)]

theorem renderCascade_high_eq_middle (v : ChineseVariant)
    (c : ChineseNumberCase) :
    ∀ n lead, n < 10 ^ 24 →
      renderCascade High v c n lead = renderCascade Middle v c n lead := by
  intro n
  induction n using Nat.strong_induction_on with
  | _ n ih =>
    intro lead h24
    cases hlu : largestUnit Middle n with
    | none =>
      have hlu' : largestUnit High n = none := by
        rw [largestUnit_high_eq_middle h24, hlu]
      rw [renderCascade_none hlu', renderCascade_none hlu]
    | some i =>
      have hlu' : largestUnit High n = some i := by
        rw [largestUnit_high_eq_middle h24, hlu]
      obtain ⟨hle, hi11⟩ := largestUnit_some hlu
      have hi2 : i ≤ 2 := by
        by_contra hc
        push_neg at hc
        have h3 : unitExp Middle 3 ≤ unitExp Middle i := unitExp_mono _ hc
        have hpow : (10 : Nat) ^ unitExp Middle 3 ≤ 10 ^ unitExp Middle i :=
          Nat.pow_le_pow_right (by norm_num) h3
        have he : unitExp Middle 3 = 24 := rfl
        rw [he] at hpow
        omega
      have hexp : unitExp High i = unitExp Middle i := by
        interval_cases i <;> rfl
      have hepos : (0 : Nat) < 10 ^ unitExp Middle i :=
        Nat.pos_pow_of_pos _ (by norm_num)
      have h10 : (10 : Nat) ≤ 10 ^ unitExp Middle i := by
        calc (10 : Nat) = 10 ^ 1 := by norm_num
          _ ≤ 10 ^ unitExp Middle i :=
            Nat.pow_le_pow_right (by norm_num)
              (by have := unitExp_ge_four Middle i; omega)
      have hqlt : n / 10 ^ unitExp Middle i < n :=
        Nat.div_lt_self (by omega) (by omega)
      have hrlt : n % 10 ^ unitExp Middle i < n :=
        lt_of_lt_of_le (Nat.mod_lt _ hepos) hle
      rw [renderCascade_some hlu', renderCascade_some hlu, hexp]
      rw [ih _ hqlt lead (lt_of_le_of_lt (Nat.div_le_self _ _) h24),
        ih _ hrlt true (lt_trans hrlt h24)]

theorem emitUnsigned_high_eq_middle (v : ChineseVariant)
    (c : ChineseNumberCase) (n : Nat) (h24 : n < 10 ^ 24) :
    emitUnsigned High v c n = emitUnsigned Middle v c n := by
  unfold emitUnsigned
  split
  · rfl
  · exact renderCascade_high_eq_middle v c n _ h24

/-! ## Round trips through the parse entry points -/

theorem parseFull_render (m : ChineseNumberCountMethod) (k : Nat) (hk : k ≤ 12)
    (v : ChineseVariant) (c : ChineseNumberCase) (n : Nat) (lead : Bool)
    (h1 : 1 ≤ n) (h2 : n < 10 ^ unitExp m k) :
    parseFull (unitsDesc m k) (renderCascade m v c n lead) = .ok n := by
  have hp := parseAt_renderCascade m k hk n v c lead [] h1 h2 trivial
  rw [List.append_nil] at hp
  unfold parseFull
  rw [hp]

theorem parseAt_nil_input (us : List (Nat × Nat)) {k : Nat}
    (hus : ∀ p ∈ us, p.1 < k) : parseAt us [] = (0, []) :=
  parseAt_stop us hus trivial

/-- Parsing an emitted numeral below the ladder bound with the matching
ladder recovers the value (zero included). -/
theorem parseFull_emitUnsigned (m : ChineseNumberCountMethod) (k : Nat)
    (hk : k ≤ 12) (v : ChineseVariant) (c : ChineseNumberCase) (n : Nat)
    (h2 : n < 10 ^ unitExp m k) :
    parseFull (unitsDesc m k) (emitUnsigned m v c n) = .ok n := by
  unfold emitUnsigned
  by_cases h0 : n = 0
  · subst h0
    rw [if_pos rfl, digitChar_zero]
    unfold parseFull
    rw [parseAt_zeroSkip _ (by rfl), parseAt_nil_input _ (unitsDesc_lt m k)]
  · rw [if_neg h0]
    exact parseFull_render m k hk v c n _ (by omega) h2

theorem emitUnsigned_ne_nil (m : ChineseNumberCountMethod)
    (v : ChineseVariant) (c : ChineseNumberCase) (n : Nat) :
    emitUnsigned m v c n ≠ [] := by
  unfold emitUnsigned
  split
  · simp
  · rename_i h0
    exact renderCascade_ne_nil m v c n _ (by omega)

theorem emitUnsigned_length_le (m : ChineseNumberCountMethod)
    (v : ChineseVariant) (c : ChineseNumberCase) (n K : Nat) (hK : 1 ≤ K)
    (hn : n < 10 ^ K) : (emitUnsigned m v c n).length ≤ 2 * K - 1 := by
  unfold emitUnsigned
  split
  · simp
    omega
  · rename_i h0
    exact renderCascade_length m v c n _ K (by omega) hn

theorem roundtrip_u8 (v : ChineseVariant) (c : ChineseNumberCase) (n : Nat)
    (hn : n ≤ 255) : parse_chinese_number_to_u8 (from_u8 v c n) = .ok n := by
  have hb : n < 10 ^ unitExp TenThousand 0 :=
    lt_of_le_of_lt hn (by norm_num [unitExp])
  have hgood := emitUnsigned_goodChars TenThousand v c n
  have hstrip := stripSpaces_eq_self hgood
  have hlen : (emitUnsigned TenThousand v c n).length ≤ 5 := by
    have := emitUnsigned_length_le TenThousand v c n 3 (by norm_num)
      (lt_of_le_of_lt hn (by norm_num))
    omega
  have hfull := parseFull_emitUnsigned TenThousand 0 (by norm_num) v c n hb
  show parse_chinese_number_to_u8 (emitUnsigned TenThousand v c n) = .ok n
  unfold parse_chinese_number_to_u8
  rw [hstrip]
  cases hE : emitUnsigned TenThousand v c n with
  | nil => exact absurd hE (emitUnsigned_ne_nil TenThousand v c n)
  | cons first rest' =>
    rw [hE] at hfull hlen
    have hfull2 : parseFull [] (first :: rest') = Except.ok n := hfull
    unfold chinese_digit_100_compat
    simp only [List.take_of_length_le hlen, hfull2]
    rw [if_neg (by omega),
      if_neg (by simp only [List.length_cons] at hlen ⊢; omega)]

theorem roundtrip_u16 (v : ChineseVariant) (c : ChineseNumberCase) (n : Nat)
    (hn : n ≤ 65535) : parse_chinese_number_to_u16 (from_u16 v c n) = .ok n := by
  have hb : n < 10 ^ unitExp TenThousand 1 :=
    lt_of_le_of_lt hn (by norm_num [unitExp])
  have hgood := emitUnsigned_goodChars TenThousand v c n
  have hstrip := stripSpaces_eq_self hgood
  have hlen : (emitUnsigned TenThousand v c n).length ≤ 15 := by
    have := emitUnsigned_length_le TenThousand v c n 5 (by norm_num)
      (lt_of_le_of_lt hn (by norm_num))
    omega
  have hfull := parseFull_emitUnsigned TenThousand 1 (by norm_num) v c n hb
  show parse_chinese_number_to_u16 (emitUnsigned TenThousand v c n) = .ok n
  unfold parse_chinese_number_to_u16
  rw [hstrip]
  cases hE : emitUnsigned TenThousand v c n with
  | nil => exact absurd hE (emitUnsigned_ne_nil TenThousand v c n)
  | cons first rest' =>
    rw [hE] at hfull hlen
    unfold chinese_digit_10000_ten_thousand_compat
    simp only [List.take_of_length_le hlen, hfull]
    rw [if_neg (by omega),
      if_neg (by simp only [List.length_cons] at hlen ⊢; omega)]

theorem roundtrip_u32 (v : ChineseVariant) (c : ChineseNumberCase)
    (m : ChineseNumberCountMethod) (n : Nat) (hn : n ≤ 4294967295) :
    parse_chinese_number_to_u32 m (from_u32 v c m n) = .ok n := by
  cases m
  case Low =>
    have hb : n < 10 ^ unitExp Low 6 :=
      lt_of_le_of_lt hn (by norm_num [unitExp])
    have hgood := emitUnsigned_goodChars Low v c n
    have hstrip := stripSpaces_eq_self hgood
    have hlen : (emitUnsigned Low v c n).length ≤ 19 := by
      have := emitUnsigned_length_le Low v c n 10 (by norm_num)
        (lt_of_le_of_lt hn (by norm_num))
      omega
    have hfull := parseFull_emitUnsigned Low 6 (by norm_num) v c n hb
    show parse_chinese_number_to_u32 Low (emitUnsigned Low v c n) = .ok n
    unfold parse_chinese_number_to_u32
    rw [hstrip]
    cases hE : emitUnsigned Low v c n with
    | nil => exact absurd hE (emitUnsigned_ne_nil Low v c n)
    | cons first rest' =>
      rw [hE] at hfull hlen
      unfold chinese_digit_1000000000_low_compat
      simp only [List.take_of_length_le hlen, hfull]
      rw [if_neg (by omega),
        if_neg (by simp only [List.length_cons] at hlen ⊢; omega)]
  all_goals {
    have hb : n < 10 ^ unitExp TenThousand 2 :=
      lt_of_le_of_lt hn (by norm_num [unitExp])
    have hgood := emitUnsigned_goodChars TenThousand v c n
    have hstrip := stripSpaces_eq_self hgood
    have hlen : (emitUnsigned TenThousand v c n).length ≤ 23 := by
      have := emitUnsigned_length_le TenThousand v c n 10 (by norm_num)
        (lt_of_le_of_lt hn (by norm_num))
      omega
    have hfull := parseFull_emitUnsigned TenThousand 2 (by norm_num) v c n hb
    show parse_chinese_number_to_u32 _ (emitUnsigned TenThousand v c n) = .ok n
    unfold parse_chinese_number_to_u32
    rw [hstrip]
    cases hE : emitUnsigned TenThousand v c n with
    | nil => exact absurd hE (emitUnsigned_ne_nil TenThousand v c n)
    | cons first rest' =>
      rw [hE] at hfull hlen
      unfold chinese_digit_100000000_ten_thousand_compat
      simp only [List.take_of_length_le hlen, hfull]
      rw [if_neg (by omega),
        if_neg (by simp only [List.length_cons] at hlen ⊢; omega)] }

theorem roundtrip_u64 (v : ChineseVariant) (c : ChineseNumberCase)
    (m : ChineseNumberCountMethod) (n : Nat)
    (hn : n ≤ 18446744073709551615)
    (hlow : m = Low → n < 10000000000000000) :
    parse_chinese_number_to_u64 m (from_u64 v c m n) = .ok n := by
  cases m
  case Low =>
    have hn16 : n < 10000000000000000 := hlow rfl
    have hb : n < 10 ^ unitExp Low 12 := lt_of_lt_of_le hn16 (by norm_num [unitExp])
    have hgood := emitUnsigned_goodChars Low v c n
    have hstrip := stripSpaces_eq_self hgood
    have hlen : (emitUnsigned Low v c n).length ≤ 31 := by
      have := emitUnsigned_length_le Low v c n 16 (by norm_num)
        (lt_of_lt_of_le hn16 (by norm_num))
      omega
    have hfull := parseFull_emitUnsigned Low 12 (by norm_num) v c n hb
    show parse_chinese_number_to_u64 Low (emitUnsigned Low v c n) = .ok n
    unfold parse_chinese_number_to_u64
    rw [hstrip]
    cases hE : emitUnsigned Low v c n with
    | nil => exact absurd hE (emitUnsigned_ne_nil Low v c n)
    | cons first rest' =>
      rw [hE] at hfull hlen
      unfold chinese_digit_1000000000000000_low_compat
      simp only [List.take_of_length_le hlen, hfull]
      rw [if_neg (by omega),
        if_neg (by simp only [List.length_cons] at hlen ⊢; omega)]
  case TenThousand =>
    have hb : n < 10 ^ unitExp TenThousand 4 :=
      lt_of_le_of_lt hn (by norm_num [unitExp])
    have hgood := emitUnsigned_goodChars TenThousand v c n
    have hstrip := stripSpaces_eq_self hgood
    have hlen : (emitUnsigned TenThousand v c n).length ≤ 39 := by
      have := emitUnsigned_length_le TenThousand v c n 20 (by norm_num)
        (lt_of_le_of_lt hn (by norm_num))
      omega
    have hfull := parseFull_emitUnsigned TenThousand 4 (by norm_num) v c n hb
    show parse_chinese_number_to_u64 TenThousand
      (emitUnsigned TenThousand v c n) = .ok n
    unfold parse_chinese_number_to_u64
    rw [hstrip]
    cases hE : emitUnsigned TenThousand v c n with
    | nil => exact absurd hE (emitUnsigned_ne_nil TenThousand v c n)
    | cons first rest' =>
      rw [hE] at hfull hlen
      unfold chinese_digit_10000000000000000_ten_thousand_compat
      simp only [List.take_of_length_le hlen, hfull]
      rw [if_neg (by omega),
        if_neg (by simp only [List.length_cons] at hlen ⊢; omega)]
  case Middle =>
    have hb : n < 10 ^ unitExp Middle 3 :=
      lt_of_le_of_lt hn (by norm_num [unitExp])
    have hgood := emitUnsigned_goodChars Middle v c n
    have hstrip := stripSpaces_eq_self hgood
    have hlen : (emitUnsigned Middle v c n).length ≤ 47 := by
      have := emitUnsigned_length_le Middle v c n 20 (by norm_num)
        (lt_of_le_of_lt hn (by norm_num))
      omega
    have hfull := parseFull_emitUnsigned Middle 3 (by norm_num) v c n hb
    show parse_chinese_number_to_u64 Middle (emitUnsigned Middle v c n) = .ok n
    unfold parse_chinese_number_to_u64
    rw [hstrip]
    cases hE : emitUnsigned Middle v c n with
    | nil => exact absurd hE (emitUnsigned_ne_nil Middle v c n)
    | cons first rest' =>
      rw [hE] at hfull hlen
      unfold chinese_digit_10000000000000000_middle_compat
      simp only [List.take_of_length_le hlen, hfull]
      rw [if_neg (by omega),
        if_neg (by simp only [List.length_cons] at hlen ⊢; omega)]
  case High =>
    have h24 : n < 10 ^ 24 := lt_of_le_of_lt hn (by norm_num)
    have hb : n < 10 ^ unitExp Middle 3 :=
      lt_of_le_of_lt hn (by norm_num [unitExp])
    have hgood := emitUnsigned_goodChars Middle v c n
    have hstrip := stripSpaces_eq_self hgood
    have hlen : (emitUnsigned Middle v c n).length ≤ 47 := by
      have := emitUnsigned_length_le Middle v c n 20 (by norm_num)
        (lt_of_le_of_lt hn (by norm_num))
      omega
    have hfull := parseFull_emitUnsigned Middle 3 (by norm_num) v c n hb
    show parse_chinese_number_to_u64 High (emitUnsigned High v c n) = .ok n
    rw [emitUnsigned_high_eq_middle v c n h24]
    unfold parse_chinese_number_to_u64
    rw [hstrip]
    cases hE : emitUnsigned Middle v c n with
    | nil => exact absurd hE (emitUnsigned_ne_nil Middle v c n)
    | cons first rest' =>
      rw [hE] at hfull hlen
      unfold chinese_digit_10000000000000000_middle_compat
      simp only [List.take_of_length_le hlen, hfull]
      rw [if_neg (by omega),
        if_neg (by simp only [List.length_cons] at hlen ⊢; omega)]

theorem intAsW8 (z : Int) : intAsWidth 8 z = (z + 128) % 256 - 128 := by
  norm_num [intAsWidth]

theorem intAsW16 (z : Int) :
    intAsWidth 16 z = (z + 32768) % 65536 - 32768 := by
  norm_num [intAsWidth]

theorem intAsW32 (z : Int) :
    intAsWidth 32 z = (z + 2147483648) % 4294967296 - 2147483648 := by
  norm_num [intAsWidth]

theorem intAsW64 (z : Int) :
    intAsWidth 64 z =
      (z + 9223372036854775808) % 18446744073709551616 -
        9223372036854775808 := by
  norm_num [intAsWidth]

theorem intAsW128 (z : Int) :
    intAsWidth 128 z =
      (z + 170141183460469231731687303715884105728) %
          340282366920938463463374607431768211456 -
        170141183460469231731687303715884105728 := by
  norm_num [intAsWidth]

theorem wrapU8 (z : Int) : wrapU 8 z = (z % 256).toNat := by
  norm_num [wrapU]

theorem wrapU16 (z : Int) : wrapU 16 z = (z % 65536).toNat := by
  norm_num [wrapU]

theorem wrapU32 (z : Int) : wrapU 32 z = (z % 4294967296).toNat := by
  norm_num [wrapU]

theorem wrapU64 (z : Int) : wrapU 64 z = (z % 18446744073709551616).toNat := by
  norm_num [wrapU]

theorem wrapU128 (z : Int) :
    wrapU 128 z = (z % 340282366920938463463374607431768211456).toNat := by
  norm_num [wrapU]

theorem negChar_ne_space (v : ChineseVariant) : negChar v ≠ ' ' := by
  cases v <;> decide

theorem negChar_mem (v : ChineseVariant) : negChar v ∈ negCharList := by
  cases v <;> decide

theorem stripSpaces_cons {ch : Char} {l : List Char} (h : ch ≠ ' ') :
    stripSpaces (ch :: l) = ch :: stripSpaces l := by
  unfold stripSpaces
  rw [List.filter_cons_of_pos (by simp [h])]

theorem from_i8_neg (v : ChineseVariant) (c : ChineseNumberCase) (x : Int)
    (h1 : -128 ≤ x) (h2 : x < 0) :
    from_i8 v c x = negChar v :: from_u8 v c x.natAbs := by
  unfold from_i8
  rw [if_pos h2]
  by_cases hmin : x = -128
  · subst hmin
    rw [if_pos rfl]
    congr 2
  · rw [if_neg hmin]
    congr 2
    rw [intAsW8, wrapU8]
    omega

theorem from_i8_nonneg (v : ChineseVariant) (c : ChineseNumberCase) (x : Int)
    (h1 : 0 ≤ x) (h2 : x ≤ 127) : from_i8 v c x = from_u8 v c x.toNat := by
  unfold from_i8
  rw [if_neg (by omega)]
  congr 1
  rw [wrapU8]
  omega

theorem roundtrip_i8 (v : ChineseVariant) (c : ChineseNumberCase) (x : Int)
    (h1 : -128 ≤ x) (h2 : x ≤ 127) :
    parse_chinese_number_to_i8 (from_i8 v c x) = .ok x := by
  by_cases hneg : x < 0
  · rw [from_i8_neg v c x h1 hneg]
    have hb : x.natAbs < 10 ^ unitExp TenThousand 0 := by
      norm_num [unitExp]
      omega
    have hgood := emitUnsigned_goodChars TenThousand v c x.natAbs
    have hlen : (emitUnsigned TenThousand v c x.natAbs).length ≤ 5 := by
      have := emitUnsigned_length_le TenThousand v c x.natAbs 3 (by norm_num)
        (by norm_num; omega)
      omega
    have hfull := parseFull_emitUnsigned TenThousand 0 (by norm_num) v c
      x.natAbs hb
    show parse_chinese_number_to_i8
      (negChar v :: emitUnsigned TenThousand v c x.natAbs) = .ok x
    unfold parse_chinese_number_to_i8
    rw [stripSpaces_cons (negChar_ne_space v), stripSpaces_eq_self hgood]
    cases hE : emitUnsigned TenThousand v c x.natAbs with
    | nil => exact absurd hE (emitUnsigned_ne_nil TenThousand v c x.natAbs)
    | cons f2 r2 =>
      rw [hE] at hfull hlen
      have hfull2 : parseFull [] (f2 :: r2) = Except.ok x.natAbs := hfull
      unfold chinese_digit_100_compat
      simp only [negChar_mem v, if_true, List.take_of_length_le hlen, hfull2]
      rw [if_neg (by omega),
        if_neg (by simp only [List.length_cons] at hlen ⊢; omega)]
      have hcast : intAsWidth 8 (-(intAsWidth 16 (x.natAbs : Int))) = x := by
        rw [intAsW16, intAsW8]
        omega
      rw [hcast]
  · push_neg at hneg
    rw [from_i8_nonneg v c x hneg h2]
    have hb : x.toNat < 10 ^ unitExp TenThousand 0 := by
      norm_num [unitExp]
      omega
    have hgood := emitUnsigned_goodChars TenThousand v c x.toNat
    have hlen : (emitUnsigned TenThousand v c x.toNat).length ≤ 5 := by
      have := emitUnsigned_length_le TenThousand v c x.toNat 3 (by norm_num)
        (by norm_num; omega)
      omega
    have hfull := parseFull_emitUnsigned TenThousand 0 (by norm_num) v c
      x.toNat hb
    show parse_chinese_number_to_i8 (emitUnsigned TenThousand v c x.toNat) =
      .ok x
    unfold parse_chinese_number_to_i8
    rw [stripSpaces_eq_self hgood]
    cases hE : emitUnsigned TenThousand v c x.toNat with
    | nil => exact absurd hE (emitUnsigned_ne_nil TenThousand v c x.toNat)
    | cons f2 r2 =>
      rw [hE] at hfull hlen
      have hfull2 : parseFull [] (f2 :: r2) = Except.ok x.toNat := hfull
      have hf2 : f2 ∉ negCharList := by
        apply goodChar_not_neg
        apply hgood
        rw [hE]
        exact List.mem_cons_self _ _
      unfold chinese_digit_100_compat
      simp only [hf2, if_false, List.take_of_length_le hlen, hfull2]
      rw [if_neg (by omega),
        if_neg (by simp only [List.length_cons] at hlen ⊢; omega)]
      have hcast : intAsWidth 8 ((x.toNat : Int)) = x := by
        rw [intAsW8]
        omega
      rw [hcast]

theorem from_i16_neg (v : ChineseVariant) (c : ChineseNumberCase) (x : Int)
    (h1 : -32768 ≤ x) (h2 : x < 0) :
    from_i16 v c x = negChar v :: from_u16 v c x.natAbs := by
  unfold from_i16
  rw [if_pos h2]
  by_cases hmin : x = -32768
  · subst hmin
    rw [if_pos rfl]
    congr 2
  · rw [if_neg hmin]
    congr 2
    rw [intAsW16, wrapU16]
    omega

theorem from_i16_nonneg (v : ChineseVariant) (c : ChineseNumberCase) (x : Int)
    (h1 : 0 ≤ x) (h2 : x ≤ 32767) : from_i16 v c x = from_u16 v c x.toNat := by
  unfold from_i16
  rw [if_neg (by omega)]
  congr 1
  rw [wrapU16]
  omega

theorem from_i32_neg (v : ChineseVariant) (c : ChineseNumberCase)
    (m : ChineseNumberCountMethod) (x : Int)
    (h1 : -2147483648 ≤ x) (h2 : x < 0) :
    from_i32 v c m x = negChar v :: from_u32 v c m x.natAbs := by
  unfold from_i32
  rw [if_pos h2]
  by_cases hmin : x = -2147483648
  · subst hmin
    rw [if_pos rfl]
    congr 2
  · rw [if_neg hmin]
    congr 2
    rw [intAsW32, wrapU32]
    omega

theorem from_i32_nonneg (v : ChineseVariant) (c : ChineseNumberCase)
    (m : ChineseNumberCountMethod) (x : Int) (h1 : 0 ≤ x)
    (h2 : x ≤ 2147483647) : from_i32 v c m x = from_u32 v c m x.toNat := by
  unfold from_i32
  rw [if_neg (by omega)]
  congr 1
  rw [wrapU32]
  omega

theorem from_i64_neg (v : ChineseVariant) (c : ChineseNumberCase)
    (m : ChineseNumberCountMethod) (x : Int)
    (h1 : -9223372036854775808 ≤ x) (h2 : x < 0) :
    from_i64 v c m x = negChar v :: from_u64 v c m x.natAbs := by
  unfold from_i64
  rw [if_pos h2]
  by_cases hmin : x = -9223372036854775808
  · rw [if_pos hmin]
    congr 2
    rw [intAsW128, wrapU64]
    omega
  · rw [if_neg hmin]
    congr 2
    rw [intAsW64, wrapU64]
    omega

theorem from_i64_nonneg (v : ChineseVariant) (c : ChineseNumberCase)
    (m : ChineseNumberCountMethod) (x : Int) (h1 : 0 ≤ x)
    (h2 : x ≤ 9223372036854775807) :
    from_i64 v c m x = from_u64 v c m x.toNat := by
  unfold from_i64
  rw [if_neg (by omega)]
  congr 1
  rw [wrapU64]
  omega

theorem roundtrip_i16 (v : ChineseVariant) (c : ChineseNumberCase) (x : Int)
    (h1 : -32768 ≤ x) (h2 : x ≤ 32767) :
    parse_chinese_number_to_i16 (from_i16 v c x) = .ok x := by
  by_cases hneg : x < 0
  · rw [from_i16_neg v c x h1 hneg]
    have hb : x.natAbs < 10 ^ unitExp TenThousand 1 := by
      norm_num [unitExp]
      omega
    have hgood := emitUnsigned_goodChars TenThousand v c x.natAbs
    have hlen : (emitUnsigned TenThousand v c x.natAbs).length ≤ 15 := by
      have := emitUnsigned_length_le TenThousand v c x.natAbs 5 (by norm_num)
        (by norm_num; omega)
      omega
    have hfull := parseFull_emitUnsigned TenThousand 1 (by norm_num) v c
      x.natAbs hb
    show parse_chinese_number_to_i16
      (negChar v :: emitUnsigned TenThousand v c x.natAbs) = .ok x
    unfold parse_chinese_number_to_i16
    rw [stripSpaces_cons (negChar_ne_space v), stripSpaces_eq_self hgood]
    cases hE : emitUnsigned TenThousand v c x.natAbs with
    | nil => exact absurd hE (emitUnsigned_ne_nil TenThousand v c x.natAbs)
    | cons f2 r2 =>
      rw [hE] at hfull hlen
      unfold chinese_digit_10000_ten_thousand_compat
      simp only [negChar_mem v, if_true, List.take_of_length_le hlen, hfull]
      rw [if_neg (by omega),
        if_neg (by simp only [List.length_cons] at hlen ⊢; omega)]
      have hcast : intAsWidth 16 (-(intAsWidth 32 (x.natAbs : Int))) = x := by
        rw [intAsW32, intAsW16]
        omega
      rw [hcast]
  · push_neg at hneg
    rw [from_i16_nonneg v c x hneg h2]
    have hb : x.toNat < 10 ^ unitExp TenThousand 1 := by
      norm_num [unitExp]
      omega
    have hgood := emitUnsigned_goodChars TenThousand v c x.toNat
    have hlen : (emitUnsigned TenThousand v c x.toNat).length ≤ 15 := by
      have := emitUnsigned_length_le TenThousand v c x.toNat 5 (by norm_num)
        (by norm_num; omega)
      omega
    have hfull := parseFull_emitUnsigned TenThousand 1 (by norm_num) v c
      x.toNat hb
    show parse_chinese_number_to_i16 (emitUnsigned TenThousand v c x.toNat) =
      .ok x
    unfold parse_chinese_number_to_i16
    rw [stripSpaces_eq_self hgood]
    cases hE : emitUnsigned TenThousand v c x.toNat with
    | nil => exact absurd hE (emitUnsigned_ne_nil TenThousand v c x.toNat)
    | cons f2 r2 =>
      rw [hE] at hfull hlen
      have hf2 : f2 ∉ negCharList := by
        apply goodChar_not_neg
        apply hgood
        rw [hE]
        exact List.mem_cons_self _ _
      unfold chinese_digit_10000_ten_thousand_compat
      simp only [hf2, if_false, List.take_of_length_le hlen, hfull]
      rw [if_neg (by omega),
        if_neg (by simp only [List.length_cons] at hlen ⊢; omega)]
      have hcast : intAsWidth 16 ((x.toNat : Int)) = x := by
        rw [intAsW16]
        omega
      rw [hcast]

theorem roundtrip_i32 (v : ChineseVariant) (c : ChineseNumberCase)
    (m : ChineseNumberCountMethod) (x : Int)
    (h1 : -2147483648 ≤ x) (h2 : x ≤ 2147483647) :
    parse_chinese_number_to_i32 m (from_i32 v c m x) = .ok x := by
  by_cases hneg : x < 0
  all_goals cases m
  case pos.Low =>
    rw [from_i32_neg v c Low x h1 hneg]
    have hb : x.natAbs < 10 ^ unitExp Low 6 := by
      norm_num [unitExp]
      omega
    have hgood := emitUnsigned_goodChars Low v c x.natAbs
    have hlen : (emitUnsigned Low v c x.natAbs).length ≤ 19 := by
      have := emitUnsigned_length_le Low v c x.natAbs 10 (by norm_num)
        (by norm_num; omega)
      omega
    have hfull := parseFull_emitUnsigned Low 6 (by norm_num) v c x.natAbs hb
    show parse_chinese_number_to_i32 Low
      (negChar v :: emitUnsigned Low v c x.natAbs) = .ok x
    unfold parse_chinese_number_to_i32
    rw [stripSpaces_cons (negChar_ne_space v), stripSpaces_eq_self hgood]
    cases hE : emitUnsigned Low v c x.natAbs with
    | nil => exact absurd hE (emitUnsigned_ne_nil Low v c x.natAbs)
    | cons f2 r2 =>
      rw [hE] at hfull hlen
      unfold chinese_digit_1000000000_low_compat
      simp only [negChar_mem v, if_true, List.take_of_length_le hlen, hfull]
      rw [if_neg (by omega),
        if_neg (by simp only [List.length_cons] at hlen ⊢; omega)]
      have hcast : intAsWidth 32 (-(intAsWidth 64 (x.natAbs : Int))) = x := by
        rw [intAsW64, intAsW32]
        omega
      rw [hcast]
  case pos.TenThousand | pos.Middle | pos.High =>
    rw [from_i32_neg v c _ x h1 hneg]
    have hb : x.natAbs < 10 ^ unitExp TenThousand 2 := by
      norm_num [unitExp]
      omega
    have hgood := emitUnsigned_goodChars TenThousand v c x.natAbs
    have hlen : (emitUnsigned TenThousand v c x.natAbs).length ≤ 23 := by
      have := emitUnsigned_length_le TenThousand v c x.natAbs 10 (by norm_num)
        (by norm_num; omega)
      omega
    have hfull := parseFull_emitUnsigned TenThousand 2 (by norm_num) v c
      x.natAbs hb
    show parse_chinese_number_to_i32 _
      (negChar v :: emitUnsigned TenThousand v c x.natAbs) = .ok x
    unfold parse_chinese_number_to_i32
    rw [stripSpaces_cons (negChar_ne_space v), stripSpaces_eq_self hgood]
    cases hE : emitUnsigned TenThousand v c x.natAbs with
    | nil => exact absurd hE (emitUnsigned_ne_nil TenThousand v c x.natAbs)
    | cons f2 r2 =>
      rw [hE] at hfull hlen
      unfold chinese_digit_100000000_ten_thousand_compat
      simp only [negChar_mem v, if_true, List.take_of_length_le hlen, hfull]
      rw [if_neg (by omega),
        if_neg (by simp only [List.length_cons] at hlen ⊢; omega)]
      have hcast : intAsWidth 32 (-(intAsWidth 64 (x.natAbs : Int))) = x := by
        rw [intAsW64, intAsW32]
        omega
      rw [hcast]
  case neg.Low =>
    push_neg at hneg
    rw [from_i32_nonneg v c Low x hneg h2]
    have hb : x.toNat < 10 ^ unitExp Low 6 := by
      norm_num [unitExp]
      omega
    have hgood := emitUnsigned_goodChars Low v c x.toNat
    have hlen : (emitUnsigned Low v c x.toNat).length ≤ 19 := by
      have := emitUnsigned_length_le Low v c x.toNat 10 (by norm_num)
        (by norm_num; omega)
      omega
    have hfull := parseFull_emitUnsigned Low 6 (by norm_num) v c x.toNat hb
    show parse_chinese_number_to_i32 Low (emitUnsigned Low v c x.toNat) = .ok x
    unfold parse_chinese_number_to_i32
    rw [stripSpaces_eq_self hgood]
    cases hE : emitUnsigned Low v c x.toNat with
    | nil => exact absurd hE (emitUnsigned_ne_nil Low v c x.toNat)
    | cons f2 r2 =>
      rw [hE] at hfull hlen
      have hf2 : f2 ∉ negCharList := by
        apply goodChar_not_neg
        apply hgood
        rw [hE]
        exact List.mem_cons_self _ _
      unfold chinese_digit_1000000000_low_compat
      simp only [hf2, if_false, List.take_of_length_le hlen, hfull]
      rw [if_neg (by omega),
        if_neg (by simp only [List.length_cons] at hlen ⊢; omega)]
      have hcast : intAsWidth 32 ((x.toNat : Int)) = x := by
        rw [intAsW32]
        omega
      rw [hcast]
  case neg.TenThousand | neg.Middle | neg.High =>
    push_neg at hneg
    rw [from_i32_nonneg v c _ x hneg h2]
    have hb : x.toNat < 10 ^ unitExp TenThousand 2 := by
      norm_num [unitExp]
      omega
    have hgood := emitUnsigned_goodChars TenThousand v c x.toNat
    have hlen : (emitUnsigned TenThousand v c x.toNat).length ≤ 23 := by
      have := emitUnsigned_length_le TenThousand v c x.toNat 10 (by norm_num)
        (by norm_num; omega)
      omega
    have hfull := parseFull_emitUnsigned TenThousand 2 (by norm_num) v c
      x.toNat hb
    show parse_chinese_number_to_i32 _
      (emitUnsigned TenThousand v c x.toNat) = .ok x
    unfold parse_chinese_number_to_i32
    rw [stripSpaces_eq_self hgood]
    cases hE : emitUnsigned TenThousand v c x.toNat with
    | nil => exact absurd hE (emitUnsigned_ne_nil TenThousand v c x.toNat)
    | cons f2 r2 =>
      rw [hE] at hfull hlen
      have hf2 : f2 ∉ negCharList := by
        apply goodChar_not_neg
        apply hgood
        rw [hE]
        exact List.mem_cons_self _ _
      unfold chinese_digit_100000000_ten_thousand_compat
      simp only [hf2, if_false, List.take_of_length_le hlen, hfull]
      rw [if_neg (by omega),
        if_neg (by simp only [List.length_cons] at hlen ⊢; omega)]
      have hcast : intAsWidth 32 ((x.toNat : Int)) = x := by
        rw [intAsW32]
        omega
      rw [hcast]

theorem roundtrip_i64 (v : ChineseVariant) (c : ChineseNumberCase)
    (m : ChineseNumberCountMethod) (x : Int)
    (h1 : -9223372036854775808 ≤ x) (h2 : x ≤ 9223372036854775807)
    (hlow : m = Low → x.natAbs < 10000000000000000) :
    parse_chinese_number_to_i64 m (from_i64 v c m x) = .ok x := by
  by_cases hneg : x < 0
  all_goals cases m
  case pos.Low =>
    have h16 : x.natAbs < 10000000000000000 := hlow rfl
    rw [from_i64_neg v c Low x h1 hneg]
    have hb : x.natAbs < 10 ^ unitExp Low 12 := by
      norm_num [unitExp]
      omega
    have hgood := emitUnsigned_goodChars Low v c x.natAbs
    have hlen : (emitUnsigned Low v c x.natAbs).length ≤ 31 := by
      have := emitUnsigned_length_le Low v c x.natAbs 16 (by norm_num)
        (by norm_num; omega)
      omega
    have hfull := parseFull_emitUnsigned Low 12 (by norm_num) v c x.natAbs hb
    show parse_chinese_number_to_i64 Low
      (negChar v :: emitUnsigned Low v c x.natAbs) = .ok x
    unfold parse_chinese_number_to_i64
    rw [stripSpaces_cons (negChar_ne_space v), stripSpaces_eq_self hgood]
    cases hE : emitUnsigned Low v c x.natAbs with
    | nil => exact absurd hE (emitUnsigned_ne_nil Low v c x.natAbs)
    | cons f2 r2 =>
      rw [hE] at hfull hlen
      unfold chinese_digit_1000000000000000_low_compat
      simp only [negChar_mem v, if_true, List.take_of_length_le hlen, hfull]
      rw [if_neg (by simp only [List.length_cons] at hlen ⊢; omega)]
      have hcast : -(intAsWidth 64 (x.natAbs : Int)) = x := by
        rw [intAsW64]
        omega
      rw [hcast]
  case pos.TenThousand =>
    rw [from_i64_neg v c TenThousand x h1 hneg]
    have hb : x.natAbs < 10 ^ unitExp TenThousand 4 := by
      norm_num [unitExp]
      omega
    have hgood := emitUnsigned_goodChars TenThousand v c x.natAbs
    have hlen : (emitUnsigned TenThousand v c x.natAbs).length ≤ 39 := by
      have := emitUnsigned_length_le TenThousand v c x.natAbs 20 (by norm_num)
        (by norm_num; omega)
      omega
    have hfull := parseFull_emitUnsigned TenThousand 4 (by norm_num) v c
      x.natAbs hb
    show parse_chinese_number_to_i64 TenThousand
      (negChar v :: emitUnsigned TenThousand v c x.natAbs) = .ok x
    unfold parse_chinese_number_to_i64
    rw [stripSpaces_cons (negChar_ne_space v), stripSpaces_eq_self hgood]
    cases hE : emitUnsigned TenThousand v c x.natAbs with
    | nil => exact absurd hE (emitUnsigned_ne_nil TenThousand v c x.natAbs)
    | cons f2 r2 =>
      rw [hE] at hfull hlen
      unfold chinese_digit_10000000000000000_ten_thousand_compat
      simp only [negChar_mem v, if_true, List.take_of_length_le hlen, hfull]
      rw [if_neg (by omega),
        if_neg (by simp only [List.length_cons] at hlen ⊢; omega)]
      have hcast : intAsWidth 64 (-(intAsWidth 128 (x.natAbs : Int))) = x := by
        rw [intAsW128, intAsW64]
        omega
      rw [hcast]
  case pos.Middle =>
    rw [from_i64_neg v c Middle x h1 hneg]
    have hb : x.natAbs < 10 ^ unitExp Middle 3 := by
      norm_num [unitExp]
      omega
    have hgood := emitUnsigned_goodChars Middle v c x.natAbs
    have hlen : (emitUnsigned Middle v c x.natAbs).length ≤ 47 := by
      have := emitUnsigned_length_le Middle v c x.natAbs 20 (by norm_num)
        (by norm_num; omega)
      omega
    have hfull := parseFull_emitUnsigned Middle 3 (by norm_num) v c
      x.natAbs hb
    show parse_chinese_number_to_i64 Middle
      (negChar v :: emitUnsigned Middle v c x.natAbs) = .ok x
    unfold parse_chinese_number_to_i64
    rw [stripSpaces_cons (negChar_ne_space v), stripSpaces_eq_self hgood]
    cases hE : emitUnsigned Middle v c x.natAbs with
    | nil => exact absurd hE (emitUnsigned_ne_nil Middle v c x.natAbs)
    | cons f2 r2 =>
      rw [hE] at hfull hlen
      unfold chinese_digit_10000000000000000_middle_compat
      simp only [negChar_mem v, if_true, List.take_of_length_le hlen, hfull]
      rw [if_neg (by omega),
        if_neg (by simp only [List.length_cons] at hlen ⊢; omega)]
      have hcast : intAsWidth 64 (-(intAsWidth 128 (x.natAbs : Int))) = x := by
        rw [intAsW128, intAsW64]
        omega
      rw [hcast]
  case pos.High =>
    rw [from_i64_neg v c High x h1 hneg]
    have h24 : x.natAbs < 10 ^ 24 := by omega
    have hb : x.natAbs < 10 ^ unitExp Middle 3 := by
      norm_num [unitExp]
      omega
    have hgood := emitUnsigned_goodChars Middle v c x.natAbs
    have hlen : (emitUnsigned Middle v c x.natAbs).length ≤ 47 := by
      have := emitUnsigned_length_le Middle v c x.natAbs 20 (by norm_num)
        (by norm_num; omega)
      omega
    have hfull := parseFull_emitUnsigned Middle 3 (by norm_num) v c
      x.natAbs hb
    show parse_chinese_number_to_i64 High
      (negChar v :: emitUnsigned High v c x.natAbs) = .ok x
    rw [emitUnsigned_high_eq_middle v c x.natAbs h24]
    unfold parse_chinese_number_to_i64
    rw [stripSpaces_cons (negChar_ne_space v), stripSpaces_eq_self hgood]
    cases hE : emitUnsigned Middle v c x.natAbs with
    | nil => exact absurd hE (emitUnsigned_ne_nil Middle v c x.natAbs)
    | cons f2 r2 =>
      rw [hE] at hfull hlen
      unfold chinese_digit_10000000000000000_middle_compat
      simp only [negChar_mem v, if_true, List.take_of_length_le hlen, hfull]
      rw [if_neg (by omega),
        if_neg (by simp only [List.length_cons] at hlen ⊢; omega)]
      have hcast : intAsWidth 64 (-(intAsWidth 128 (x.natAbs : Int))) = x := by
        rw [intAsW128, intAsW64]
        omega
      rw [hcast]
  case neg.Low =>
    push_neg at hneg
    have h16 : x.toNat < 10000000000000000 := by
      have := hlow rfl
      omega
    rw [from_i64_nonneg v c Low x hneg h2]
    have hb : x.toNat < 10 ^ unitExp Low 12 := by
      norm_num [unitExp]
      omega
    have hgood := emitUnsigned_goodChars Low v c x.toNat
    have hlen : (emitUnsigned Low v c x.toNat).length ≤ 31 := by
      have := emitUnsigned_length_le Low v c x.toNat 16 (by norm_num)
        (by norm_num; omega)
      omega
    have hfull := parseFull_emitUnsigned Low 12 (by norm_num) v c x.toNat hb
    show parse_chinese_number_to_i64 Low (emitUnsigned Low v c x.toNat) = .ok x
    unfold parse_chinese_number_to_i64
    rw [stripSpaces_eq_self hgood]
    cases hE : emitUnsigned Low v c x.toNat with
    | nil => exact absurd hE (emitUnsigned_ne_nil Low v c x.toNat)
    | cons f2 r2 =>
      rw [hE] at hfull hlen
      have hf2 : f2 ∉ negCharList := by
        apply goodChar_not_neg
        apply hgood
        rw [hE]
        exact List.mem_cons_self _ _
      unfold chinese_digit_1000000000000000_low_compat
      simp only [hf2, if_false, List.take_of_length_le hlen, hfull]
      rw [if_neg (by omega),
        if_neg (by simp only [List.length_cons] at hlen ⊢; omega)]
      have hcast : intAsWidth 64 ((x.toNat : Int)) = x := by
        rw [intAsW64]
        omega
      rw [hcast]
  case neg.TenThousand =>
    push_neg at hneg
    rw [from_i64_nonneg v c TenThousand x hneg h2]
    have hb : x.toNat < 10 ^ unitExp TenThousand 4 := by
      norm_num [unitExp]
      omega
    have hgood := emitUnsigned_goodChars TenThousand v c x.toNat
    have hlen : (emitUnsigned TenThousand v c x.toNat).length ≤ 39 := by
      have := emitUnsigned_length_le TenThousand v c x.toNat 20 (by norm_num)
        (by norm_num; omega)
      omega
    have hfull := parseFull_emitUnsigned TenThousand 4 (by norm_num) v c
      x.toNat hb
    show parse_chinese_number_to_i64 TenThousand
      (emitUnsigned TenThousand v c x.toNat) = .ok x
    unfold parse_chinese_number_to_i64
    rw [stripSpaces_eq_self hgood]
    cases hE : emitUnsigned TenThousand v c x.toNat with
    | nil => exact absurd hE (emitUnsigned_ne_nil TenThousand v c x.toNat)
    | cons f2 r2 =>
      rw [hE] at hfull hlen
      have hf2 : f2 ∉ negCharList := by
        apply goodChar_not_neg
        apply hgood
        rw [hE]
        exact List.mem_cons_self _ _
      unfold chinese_digit_10000000000000000_ten_thousand_compat
      simp only [hf2, if_false, List.take_of_length_le hlen, hfull]
      rw [if_neg (by omega),
        if_neg (by simp only [List.length_cons] at hlen ⊢; omega)]
      have hcast : intAsWidth 64 ((x.toNat : Int)) = x := by
        rw [intAsW64]
        omega
      rw [hcast]
  case neg.Middle =>
    push_neg at hneg
    rw [from_i64_nonneg v c Middle x hneg h2]
    have hb : x.toNat < 10 ^ unitExp Middle 3 := by
      norm_num [unitExp]
      omega
    have hgood := emitUnsigned_goodChars Middle v c x.toNat
    have hlen : (emitUnsigned Middle v c x.toNat).length ≤ 47 := by
      have := emitUnsigned_length_le Middle v c x.toNat 20 (by norm_num)
        (by norm_num; omega)
      omega
    have hfull := parseFull_emitUnsigned Middle 3 (by norm_num) v c x.toNat hb
    show parse_chinese_number_to_i64 Middle
      (emitUnsigned Middle v c x.toNat) = .ok x
    unfold parse_chinese_number_to_i64
    rw [stripSpaces_eq_self hgood]
    cases hE : emitUnsigned Middle v c x.toNat with
    | nil => exact absurd hE (emitUnsigned_ne_nil Middle v c x.toNat)
    | cons f2 r2 =>
      rw [hE] at hfull hlen
      have hf2 : f2 ∉ negCharList := by
        apply goodChar_not_neg
        apply hgood
        rw [hE]
        exact List.mem_cons_self _ _
      unfold chinese_digit_10000000000000000_middle_compat
      simp only [hf2, if_false, List.take_of_length_le hlen, hfull]
      rw [if_neg (by omega),
        if_neg (by simp only [List.length_cons] at hlen ⊢; omega)]
      have hcast : intAsWidth 64 ((x.toNat : Int)) = x := by
        rw [intAsW64]
        omega
      rw [hcast]
  case neg.High =>
    push_neg at hneg
    rw [from_i64_nonneg v c High x hneg h2]
    have h24 : x.toNat < 10 ^ 24 := by omega
    have hb : x.toNat < 10 ^ unitExp Middle 3 := by
      norm_num [unitExp]
      omega
    have hgood := emitUnsigned_goodChars Middle v c x.toNat
    have hlen : (emitUnsigned Middle v c x.toNat).length ≤ 47 := by
      have := emitUnsigned_length_le Middle v c x.toNat 20 (by norm_num)
        (by norm_num; omega)
      omega
    have hfull := parseFull_emitUnsigned Middle 3 (by norm_num) v c x.toNat hb
    show parse_chinese_number_to_i64 High
      (emitUnsigned High v c x.toNat) = .ok x
    rw [emitUnsigned_high_eq_middle v c x.toNat h24]
    unfold parse_chinese_number_to_i64
    rw [stripSpaces_eq_self hgood]
    cases hE : emitUnsigned Middle v c x.toNat with
    | nil => exact absurd hE (emitUnsigned_ne_nil Middle v c x.toNat)
    | cons f2 r2 =>
      rw [hE] at hfull hlen
      have hf2 : f2 ∉ negCharList := by
        apply goodChar_not_neg
        apply hgood
        rw [hE]
        exact List.mem_cons_self _ _
      unfold chinese_digit_10000000000000000_middle_compat
      simp only [hf2, if_false, List.take_of_length_le hlen, hfull]
      rw [if_neg (by omega),
        if_neg (by simp only [List.length_cons] at hlen ⊢; omega)]
      have hcast : intAsWidth 64 ((x.toNat : Int)) = x := by
        rw [intAsW64]
        omega
      rw [hcast]

/-! ## The fractional parser (`parse_chinese_number_to_f64`)

Rust `str::find` and slicing work on byte offsets, so the embedding keeps
track of UTF-8 byte widths.  Floating-point arithmetic is kept symbolic:
an `Ok` result is represented by the parsed integer part together with the
tenths and hundredths digits (the fraction is always applied away from
zero, so these parts determine the value). -/

/-- UTF-8 byte width of a character. -/
def charBytes (c : Char) : Nat :=
  if c.toNat < 128 then 1
  else if c.toNat < 2048 then 2
  else if c.toNat < 65536 then 3
  else 4

/-- `str::len`: total UTF-8 byte length. -/
def byteLen : List Char → Nat
  | [] => 0
  | c :: rest => charBytes c + byteLen rest

/-- `str::find` with a single-character pattern: byte offset of the first
occurrence. -/
def findByte (t : Char) : List Char → Option Nat
  | [] => none
  | c :: rest =>
    if c = t then some 0
    else (findByte t rest).map (fun i => i + charBytes c)

/-- Slicing `(&s[..n], &s[n..])` at byte offset `n` (always a character
boundary at the call sites below). -/
def splitAtByte : Nat → List Char → List Char × List Char
  | _, [] => ([], [])
  | n, c :: rest =>
    if n = 0 then ([], c :: rest)
    else
      let p := splitAtByte (n - charBytes c) rest
      (c :: p.1, p.2)

/-- `Vec::remove(len - 1)`: the list without its last element, and that
element; `none` models the panic on an empty vector. -/
def splitLast : List Char → Option (List Char × Char)
  | [] => none
  | [c] => some ([], c)
  | c :: c2 :: rest =>
    (splitLast (c2 :: rest)).map (fun p => (c :: p.1, p.2))

/-- Symbolic value of a successful `f64` parse: integer part plus the
tenths (角) and hundredths (分) digits, applied away from zero. -/
structure F64Parts where
  intPart : Int
  tenths : Nat
  hundredths : Nat
  deriving DecidableEq, Repr

/-- The fraction search of `parse_chinese_number_to_f64`: the byte offset
of the first 角 if any, otherwise of the first 分, otherwise the length. -/
def fractionIndex (cn : List Char) : Nat :=
  match findByte (fractionChar 0) cn with
  | some i => i
  | none =>
    match findByte (fractionChar 1) cn with
    | some i => i
    | none => byteLen cn

/-- Body of `parse_chinese_number_to_f64` after space stripping.  `none`
models a panic (the `unwrap` on the fraction tail and the vector removal,
both unreachable for the offsets produced by `fractionIndex`). -/
def parse_f64_core (m : ChineseNumberCountMethod) (cn : List Char) :
    Option (Except ChineseNumberParseError F64Parts) :=
  if byteLen cn = 0 then some (.error .ChineseNumberEmpty)
  else if fractionIndex cn = 0 then
    some (.error (.ChineseNumberIncorrect 0))
  else if fractionIndex cn = byteLen cn then
    some ((parse_chinese_number_to_i64 m cn).map
      (fun r => { intPart := r, tenths := 0, hundredths := 0 }))
  else
    match splitLast (splitAtByte (fractionIndex cn) cn).1 with
    | none => none
    | some (integer_part, last_char) =>
      match parse_chinese_number_to_i64 m integer_part with
      | .error e => some (.error e)
      | .ok integer_number =>
        match chinese_digit_1 last_char with
        | .error _ =>
          some (.error (.ChineseNumberIncorrect integer_part.length))
        | .ok fd1 =>
          match (splitAtByte (fractionIndex cn) cn).2 with
          | [] => none
          | unit1 :: fcr =>
            if unit1 = fractionChar 0 then
              match fcr with
              | [] =>
                some (.ok
                  { intPart := integer_number, tenths := fd1,
                    hundredths := 0 })
              | next_char :: fcr2 =>
                match chinese_digit_1 next_char with
                | .error _ =>
                  some (.error
                    (.ChineseNumberIncorrect (integer_part.length + 2)))
                | .ok fd2 =>
                  match fcr2 with
                  | [] =>
                    some (.error
                      (.ChineseNumberIncorrect (integer_part.length + 3)))
                  | unit2 :: _ =>
                    if unit2 = fractionChar 1 then
                      some (.ok
                        { intPart := integer_number, tenths := fd1,
                          hundredths := fd2 })
                    else
                      some (.error
                        (.ChineseNumberIncorrect (integer_part.length + 3)))
            else if unit1 = fractionChar 1 then
              match fcr with
              | [] =>
                some (.ok
                  { intPart := integer_number, tenths := 0,
                    hundredths := fd1 })
              | _ :: _ =>
                some (.error
                  (.ChineseNumberIncorrect (integer_part.length + 2)))
            else
              some (.error
                (.ChineseNumberIncorrect (integer_part.length + 1)))

/-- `parse_chinese_number_to_f64`: strip spaces, then the core. -/
def parse_chinese_number_to_f64 (m : ChineseNumberCountMethod)
    (s : List Char) : Option (Except ChineseNumberParseError F64Parts) :=
  parse_f64_core m (stripSpaces s)

theorem charBytes_pos (c : Char) : 0 < charBytes c := by
  unfold charBytes
  split_ifs <;> norm_num

theorem findByte_eq_none {t : Char} {l : List Char} (h : t ∉ l) :
    findByte t l = none := by
  induction l with
  | nil => rfl
  | cons c rest ih =>
    simp only [List.mem_cons, not_or] at h
    unfold findByte
    rw [if_neg (fun hh => h.1 hh.symm), ih h.2]
    rfl

theorem splitAtByte_zero (l : List Char) : splitAtByte 0 l = ([], l) := by
  cases l <;> simp [splitAtByte]

theorem splitAtByte_head (c : Char) (l : List Char) :
    splitAtByte (charBytes c) (c :: l) = ([c], l) := by
  unfold splitAtByte
  rw [if_neg (charBytes_pos c).ne', Nat.sub_self, splitAtByte_zero]

theorem fractionIndex_head_tenths (c : Char) (rest : List Char)
    (hc : c ≠ fractionChar 0) :
    fractionIndex (c :: fractionChar 0 :: rest) = charBytes c := by
  unfold fractionIndex
  have hfind : findByte (fractionChar 0) (c :: fractionChar 0 :: rest) =
      some (charBytes c) := by
    simp [findByte, hc]
  rw [hfind]

theorem fractionIndex_head_hundredths (c : Char) (rest : List Char)
    (hc0 : c ≠ fractionChar 0) (hc1 : c ≠ fractionChar 1)
    (hr : fractionChar 0 ∉ rest) :
    fractionIndex (c :: fractionChar 1 :: rest) = charBytes c := by
  unfold fractionIndex
  have hnone : findByte (fractionChar 0) (c :: fractionChar 1 :: rest) =
      none := by
    apply findByte_eq_none
    intro hmem
    rcases List.mem_cons.mp hmem with h | hmem2
    · exact hc0 h.symm
    · rcases List.mem_cons.mp hmem2 with h | h
      · exact absurd h (by decide)
      · exact hr h
  have hfind : findByte (fractionChar 1) (c :: fractionChar 1 :: rest) =
      some (charBytes c) := by
    simp [findByte, hc1]
  rw [hnone, hfind]

theorem parse_f64_core_single_digit_prefix (m : ChineseNumberCountMethod)
    (c u : Char) (rest : List Char) (d : Nat)
    (hc : charToDigit c = some d)
    (hu : u = fractionChar 0 ∨
      (u = fractionChar 1 ∧ fractionChar 0 ∉ rest)) :
    parse_f64_core m (c :: u :: rest) =
      some (.error .ChineseNumberEmpty) := by
  have hc0 : c ≠ fractionChar 0 := by
    intro h
    rw [h, show charToDigit (fractionChar 0) = none from rfl] at hc
    exact Option.noConfusion hc
  have hc1 : c ≠ fractionChar 1 := by
    intro h
    rw [h, show charToDigit (fractionChar 1) = none from rfl] at hc
    exact Option.noConfusion hc
  have hlen0 : byteLen (c :: u :: rest) ≠ 0 := by
    have := charBytes_pos c
    simp only [byteLen]
    omega
  have hclen : charBytes c ≠ byteLen (c :: u :: rest) := by
    have := charBytes_pos u
    simp only [byteLen]
    omega
  rcases hu with rfl | ⟨rfl, hr⟩
  · unfold parse_f64_core
    rw [fractionIndex_head_tenths c rest hc0]
    rw [if_neg hlen0, if_neg (charBytes_pos c).ne', if_neg hclen,
      splitAtByte_head]
    rfl
  · unfold parse_f64_core
    rw [fractionIndex_head_hundredths c rest hc0 hc1 hr]
    rw [if_neg hlen0, if_neg (charBytes_pos c).ne', if_neg hclen,
      splitAtByte_head]
    rfl

/-! ## The trait surface (`ChineseNumber`, `ChineseNumberToNumber`)

The 8-bit and 16-bit implementations ignore the counting convention: every
convention-specific trait method calls the same convention-free entry
point, and the parse impls discard their `_method` argument. -/

def i8.to_uppercase_high (v : ChineseVariant) (x : Int) : List Char :=
  from_i8 v Upper x

def i8.to_uppercase_middle (v : ChineseVariant) (x : Int) : List Char :=
  from_i8 v Upper x

def i8.to_uppercase_ten_thousand (v : ChineseVariant) (x : Int) :
    List Char :=
  from_i8 v Upper x

def i8.to_uppercase_low (v : ChineseVariant) (x : Int) : List Char :=
  from_i8 v Upper x

def i8.to_lowercase_high (v : ChineseVariant) (x : Int) : List Char :=
  from_i8 v Lower x

def i8.to_lowercase_middle (v : ChineseVariant) (x : Int) : List Char :=
  from_i8 v Lower x

def i8.to_lowercase_ten_thousand (v : ChineseVariant) (x : Int) :
    List Char :=
  from_i8 v Lower x

def i8.to_lowercase_low (v : ChineseVariant) (x : Int) : List Char :=
  from_i8 v Lower x

def u8.to_uppercase_high (v : ChineseVariant) (n : Nat) : List Char :=
  from_u8 v Upper n

def u8.to_uppercase_middle (v : ChineseVariant) (n : Nat) : List Char :=
  from_u8 v Upper n

def u8.to_uppercase_ten_thousand (v : ChineseVariant) (n : Nat) :
    List Char :=
  from_u8 v Upper n

def u8.to_uppercase_low (v : ChineseVariant) (n : Nat) : List Char :=
  from_u8 v Upper n

def u8.to_lowercase_high (v : ChineseVariant) (n : Nat) : List Char :=
  from_u8 v Lower n

def u8.to_lowercase_middle (v : ChineseVariant) (n : Nat) : List Char :=
  from_u8 v Lower n

def u8.to_lowercase_ten_thousand (v : ChineseVariant) (n : Nat) :
    List Char :=
  from_u8 v Lower n

def u8.to_lowercase_low (v : ChineseVariant) (n : Nat) : List Char :=
  from_u8 v Lower n

def i16.to_uppercase_high (v : ChineseVariant) (x : Int) : List Char :=
  from_i16 v Upper x

def i16.to_uppercase_middle (v : ChineseVariant) (x : Int) : List Char :=
  from_i16 v Upper x

def i16.to_uppercase_ten_thousand (v : ChineseVariant) (x : Int) :
    List Char :=
  from_i16 v Upper x

def i16.to_uppercase_low (v : ChineseVariant) (x : Int) : List Char :=
  from_i16 v Upper x

def i16.to_lowercase_high (v : ChineseVariant) (x : Int) : List Char :=
  from_i16 v Lower x

def i16.to_lowercase_middle (v : ChineseVariant) (x : Int) : List Char :=
  from_i16 v Lower x

def i16.to_lowercase_ten_thousand (v : ChineseVariant) (x : Int) :
    List Char :=
  from_i16 v Lower x

def i16.to_lowercase_low (v : ChineseVariant) (x : Int) : List Char :=
  from_i16 v Lower x

def u16.to_uppercase_high (v : ChineseVariant) (n : Nat) : List Char :=
  from_u16 v Upper n

def u16.to_uppercase_middle (v : ChineseVariant) (n : Nat) : List Char :=
  from_u16 v Upper n

def u16.to_uppercase_ten_thousand (v : ChineseVariant) (n : Nat) :
    List Char :=
  from_u16 v Upper n

def u16.to_uppercase_low (v : ChineseVariant) (n : Nat) : List Char :=
  from_u16 v Upper n

def u16.to_lowercase_high (v : ChineseVariant) (n : Nat) : List Char :=
  from_u16 v Lower n

def u16.to_lowercase_middle (v : ChineseVariant) (n : Nat) : List Char :=
  from_u16 v Lower n

def u16.to_lowercase_ten_thousand (v : ChineseVariant) (n : Nat) :
    List Char :=
  from_u16 v Lower n

def u16.to_lowercase_low (v : ChineseVariant) (n : Nat) : List Char :=
  from_u16 v Lower n

def i8.parse_chinese_number (_m : ChineseNumberCountMethod)
    (s : List Char) : Except ChineseNumberParseError Int :=
  parse_chinese_number_to_i8 s

def u8.parse_chinese_number (_m : ChineseNumberCountMethod)
    (s : List Char) : Except ChineseNumberParseError Nat :=
  parse_chinese_number_to_u8 s

def i16.parse_chinese_number (_m : ChineseNumberCountMethod)
    (s : List Char) : Except ChineseNumberParseError Int :=
  parse_chinese_number_to_i16 s

def u16.parse_chinese_number (_m : ChineseNumberCountMethod)
    (s : List Char) : Except ChineseNumberParseError Nat :=
  parse_chinese_number_to_u16 s

/-! ## Boundary behaviour of the signed parsers -/

theorem parse_i8_neg_underflow (v : ChineseVariant) (c : ChineseNumberCase)
    (n : Nat) (hlo : 128 < n) (hhi : n ≤ 999) :
    parse_chinese_number_to_i8 (negChar v :: emitUnsigned TenThousand v c n) =
      .error .Underflow := by
  have hb : n < 10 ^ unitExp TenThousand 0 := by
    norm_num [unitExp]
    omega
  have hgood := emitUnsigned_goodChars TenThousand v c n
  have hlen : (emitUnsigned TenThousand v c n).length ≤ 5 := by
    have := emitUnsigned_length_le TenThousand v c n 3 (by norm_num)
      (by omega)
    omega
  have hfull := parseFull_emitUnsigned TenThousand 0 (by norm_num) v c n hb
  unfold parse_chinese_number_to_i8
  rw [stripSpaces_cons (negChar_ne_space v), stripSpaces_eq_self hgood]
  cases hE : emitUnsigned TenThousand v c n with
  | nil => exact absurd hE (emitUnsigned_ne_nil TenThousand v c n)
  | cons f2 r2 =>
    rw [hE] at hfull hlen
    have hfull2 : parseFull [] (f2 :: r2) = Except.ok n := hfull
    unfold chinese_digit_100_compat
    simp only [negChar_mem v, if_true, List.take_of_length_le hlen, hfull2]
    rw [if_pos (by omega)]

theorem parse_i8_pos_overflow (v : ChineseVariant) (c : ChineseNumberCase)
    (n : Nat) (hlo : 127 < n) (hhi : n ≤ 999) :
    parse_chinese_number_to_i8 (emitUnsigned TenThousand v c n) =
      .error .Overflow := by
  have hb : n < 10 ^ unitExp TenThousand 0 := by
    norm_num [unitExp]
    omega
  have hgood := emitUnsigned_goodChars TenThousand v c n
  have hlen : (emitUnsigned TenThousand v c n).length ≤ 5 := by
    have := emitUnsigned_length_le TenThousand v c n 3 (by norm_num)
      (by omega)
    omega
  have hfull := parseFull_emitUnsigned TenThousand 0 (by norm_num) v c n hb
  unfold parse_chinese_number_to_i8
  rw [stripSpaces_eq_self hgood]
  cases hE : emitUnsigned TenThousand v c n with
  | nil => exact absurd hE (emitUnsigned_ne_nil TenThousand v c n)
  | cons f2 r2 =>
    rw [hE] at hfull hlen
    have hfull2 : parseFull [] (f2 :: r2) = Except.ok n := hfull
    have hf2 : f2 ∉ negCharList := by
      apply goodChar_not_neg
      apply hgood
      rw [hE]
      exact List.mem_cons_self _ _
    unfold chinese_digit_100_compat
    simp only [hf2, if_false, List.take_of_length_le hlen, hfull2]
    rw [if_pos (by omega)]

theorem parse_i16_neg_underflow (v : ChineseVariant) (c : ChineseNumberCase)
    (n : Nat) (hlo : 32768 < n) (hhi : n ≤ 99999999) :
    parse_chinese_number_to_i16
      (negChar v :: emitUnsigned TenThousand v c n) = .error .Underflow := by
  have hb : n < 10 ^ unitExp TenThousand 1 := by
    norm_num [unitExp]
    omega
  have hgood := emitUnsigned_goodChars TenThousand v c n
  have hlen : (emitUnsigned TenThousand v c n).length ≤ 15 := by
    have := emitUnsigned_length_le TenThousand v c n 8 (by norm_num)
      (by omega)
    omega
  have hfull := parseFull_emitUnsigned TenThousand 1 (by norm_num) v c n hb
  unfold parse_chinese_number_to_i16
  rw [stripSpaces_cons (negChar_ne_space v), stripSpaces_eq_self hgood]
  cases hE : emitUnsigned TenThousand v c n with
  | nil => exact absurd hE (emitUnsigned_ne_nil TenThousand v c n)
  | cons f2 r2 =>
    rw [hE] at hfull hlen
    unfold chinese_digit_10000_ten_thousand_compat
    simp only [negChar_mem v, if_true, List.take_of_length_le hlen, hfull]
    rw [if_pos (by omega)]

theorem parse_i16_pos_overflow (v : ChineseVariant) (c : ChineseNumberCase)
    (n : Nat) (hlo : 32767 < n) (hhi : n ≤ 99999999) :
    parse_chinese_number_to_i16 (emitUnsigned TenThousand v c n) =
      .error .Overflow := by
  have hb : n < 10 ^ unitExp TenThousand 1 := by
    norm_num [unitExp]
    omega
  have hgood := emitUnsigned_goodChars TenThousand v c n
  have hlen : (emitUnsigned TenThousand v c n).length ≤ 15 := by
    have := emitUnsigned_length_le TenThousand v c n 8 (by norm_num)
      (by omega)
    omega
  have hfull := parseFull_emitUnsigned TenThousand 1 (by norm_num) v c n hb
  unfold parse_chinese_number_to_i16
  rw [stripSpaces_eq_self hgood]
  cases hE : emitUnsigned TenThousand v c n with
  | nil => exact absurd hE (emitUnsigned_ne_nil TenThousand v c n)
  | cons f2 r2 =>
    rw [hE] at hfull hlen
    have hf2 : f2 ∉ negCharList := by
      apply goodChar_not_neg
      apply hgood
      rw [hE]
      exact List.mem_cons_self _ _
    unfold chinese_digit_10000_ten_thousand_compat
    simp only [hf2, if_false, List.take_of_length_le hlen, hfull]
    rw [if_pos (by omega)]

theorem parse_i32_tt_neg_underflow (v : ChineseVariant)
    (c : ChineseNumberCase) (n : Nat) (hlo : 2147483648 < n)
    (hhi : n ≤ 999999999999) :
    parse_chinese_number_to_i32 TenThousand
      (negChar v :: emitUnsigned TenThousand v c n) = .error .Underflow := by
  have hb : n < 10 ^ unitExp TenThousand 2 := by
    norm_num [unitExp]
    omega
  have hgood := emitUnsigned_goodChars TenThousand v c n
  have hlen : (emitUnsigned TenThousand v c n).length ≤ 23 := by
    have := emitUnsigned_length_le TenThousand v c n 12 (by norm_num)
      (by omega)
    omega
  have hfull := parseFull_emitUnsigned TenThousand 2 (by norm_num) v c n hb
  unfold parse_chinese_number_to_i32
  rw [stripSpaces_cons (negChar_ne_space v), stripSpaces_eq_self hgood]
  cases hE : emitUnsigned TenThousand v c n with
  | nil => exact absurd hE (emitUnsigned_ne_nil TenThousand v c n)
  | cons f2 r2 =>
    rw [hE] at hfull hlen
    unfold chinese_digit_100000000_ten_thousand_compat
    simp only [negChar_mem v, if_true, List.take_of_length_le hlen, hfull]
    rw [if_pos (by omega)]

theorem parse_i32_tt_pos_overflow (v : ChineseVariant)
    (c : ChineseNumberCase) (n : Nat) (hlo : 2147483647 < n)
    (hhi : n ≤ 999999999999) :
    parse_chinese_number_to_i32 TenThousand (emitUnsigned TenThousand v c n) =
      .error .Overflow := by
  have hb : n < 10 ^ unitExp TenThousand 2 := by
    norm_num [unitExp]
    omega
  have hgood := emitUnsigned_goodChars TenThousand v c n
  have hlen : (emitUnsigned TenThousand v c n).length ≤ 23 := by
    have := emitUnsigned_length_le TenThousand v c n 12 (by norm_num)
      (by omega)
    omega
  have hfull := parseFull_emitUnsigned TenThousand 2 (by norm_num) v c n hb
  unfold parse_chinese_number_to_i32
  rw [stripSpaces_eq_self hgood]
  cases hE : emitUnsigned TenThousand v c n with
  | nil => exact absurd hE (emitUnsigned_ne_nil TenThousand v c n)
  | cons f2 r2 =>
    rw [hE] at hfull hlen
    have hf2 : f2 ∉ negCharList := by
      apply goodChar_not_neg
      apply hgood
      rw [hE]
      exact List.mem_cons_self _ _
    unfold chinese_digit_100000000_ten_thousand_compat
    simp only [hf2, if_false, List.take_of_length_le hlen, hfull]
    rw [if_pos (by omega)]

/-- The non-Low arms of the i32 parser share one body, so the entry point
does not distinguish TenThousand, Middle and High. -/
theorem parse_i32_method_merge (m : ChineseNumberCountMethod) (hm : m ≠ Low)
    (s : List Char) :
    parse_chinese_number_to_i32 m s =
      parse_chinese_number_to_i32 TenThousand s := by
  cases m
  case Low => exact absurd rfl hm
  all_goals rfl

/-- The Middle and High arms of the i64 parser share one body. -/
theorem parse_i64_entry_high_eq_middle (s : List Char) :
    parse_chinese_number_to_i64 High s =
      parse_chinese_number_to_i64 Middle s := by
  rfl

theorem parse_i32_low_neg_underflow (v : ChineseVariant)
    (c : ChineseNumberCase) (n : Nat) (hlo : 2147483648 < n)
    (hhi : n ≤ 9999999999) :
    parse_chinese_number_to_i32 Low
      (negChar v :: emitUnsigned Low v c n) = .error .Underflow := by
  have hb : n < 10 ^ unitExp Low 6 := by
    norm_num [unitExp]
    omega
  have hgood := emitUnsigned_goodChars Low v c n
  have hlen : (emitUnsigned Low v c n).length ≤ 19 := by
    have := emitUnsigned_length_le Low v c n 10 (by norm_num)
      (by omega)
    omega
  have hfull := parseFull_emitUnsigned Low 6 (by norm_num) v c n hb
  unfold parse_chinese_number_to_i32
  rw [stripSpaces_cons (negChar_ne_space v), stripSpaces_eq_self hgood]
  cases hE : emitUnsigned Low v c n with
  | nil => exact absurd hE (emitUnsigned_ne_nil Low v c n)
  | cons f2 r2 =>
    rw [hE] at hfull hlen
    unfold chinese_digit_1000000000_low_compat
    simp only [negChar_mem v, if_true, List.take_of_length_le hlen, hfull]
    rw [if_pos (by omega)]

theorem parse_i32_low_pos_overflow (v : ChineseVariant)
    (c : ChineseNumberCase) (n : Nat) (hlo : 2147483647 < n)
    (hhi : n ≤ 9999999999) :
    parse_chinese_number_to_i32 Low (emitUnsigned Low v c n) =
      .error .Overflow := by
  have hb : n < 10 ^ unitExp Low 6 := by
    norm_num [unitExp]
    omega
  have hgood := emitUnsigned_goodChars Low v c n
  have hlen : (emitUnsigned Low v c n).length ≤ 19 := by
    have := emitUnsigned_length_le Low v c n 10 (by norm_num)
      (by omega)
    omega
  have hfull := parseFull_emitUnsigned Low 6 (by norm_num) v c n hb
  unfold parse_chinese_number_to_i32
  rw [stripSpaces_eq_self hgood]
  cases hE : emitUnsigned Low v c n with
  | nil => exact absurd hE (emitUnsigned_ne_nil Low v c n)
  | cons f2 r2 =>
    rw [hE] at hfull hlen
    have hf2 : f2 ∉ negCharList := by
      apply goodChar_not_neg
      apply hgood
      rw [hE]
      exact List.mem_cons_self _ _
    unfold chinese_digit_1000000000_low_compat
    simp only [hf2, if_false, List.take_of_length_le hlen, hfull]
    rw [if_pos (by omega)]

theorem parse_i64_mid_neg_underflow (v : ChineseVariant)
    (c : ChineseNumberCase) (n : Nat) (hlo : 9223372036854775808 < n)
    (hhi : n ≤ 999999999999999999999999) :
    parse_chinese_number_to_i64 Middle
      (negChar v :: emitUnsigned Middle v c n) = .error .Underflow := by
  have hb : n < 10 ^ unitExp Middle 3 := by
    norm_num [unitExp]
    omega
  have hgood := emitUnsigned_goodChars Middle v c n
  have hlen : (emitUnsigned Middle v c n).length ≤ 47 := by
    have := emitUnsigned_length_le Middle v c n 24 (by norm_num)
      (by omega)
    omega
  have hfull := parseFull_emitUnsigned Middle 3 (by norm_num) v c n hb
  unfold parse_chinese_number_to_i64
  rw [stripSpaces_cons (negChar_ne_space v), stripSpaces_eq_self hgood]
  cases hE : emitUnsigned Middle v c n with
  | nil => exact absurd hE (emitUnsigned_ne_nil Middle v c n)
  | cons f2 r2 =>
    rw [hE] at hfull hlen
    unfold chinese_digit_10000000000000000_middle_compat
    simp only [negChar_mem v, if_true, List.take_of_length_le hlen, hfull]
    rw [if_pos (by omega)]

theorem parse_i64_mid_pos_overflow (v : ChineseVariant)
    (c : ChineseNumberCase) (n : Nat) (hlo : 9223372036854775807 < n)
    (hhi : n ≤ 999999999999999999999999) :
    parse_chinese_number_to_i64 Middle (emitUnsigned Middle v c n) =
      .error .Overflow := by
  have hb : n < 10 ^ unitExp Middle 3 := by
    norm_num [unitExp]
    omega
  have hgood := emitUnsigned_goodChars Middle v c n
  have hlen : (emitUnsigned Middle v c n).length ≤ 47 := by
    have := emitUnsigned_length_le Middle v c n 24 (by norm_num)
      (by omega)
    omega
  have hfull := parseFull_emitUnsigned Middle 3 (by norm_num) v c n hb
  unfold parse_chinese_number_to_i64
  rw [stripSpaces_eq_self hgood]
  cases hE : emitUnsigned Middle v c n with
  | nil => exact absurd hE (emitUnsigned_ne_nil Middle v c n)
  | cons f2 r2 =>
    rw [hE] at hfull hlen
    have hf2 : f2 ∉ negCharList := by
      apply goodChar_not_neg
      apply hgood
      rw [hE]
      exact List.mem_cons_self _ _
    unfold chinese_digit_10000000000000000_middle_compat
    simp only [hf2, if_false, List.take_of_length_le hlen, hfull]
    rw [if_pos (by omega)]

theorem parse_i64_tt_neg_underflow (v : ChineseVariant)
    (c : ChineseNumberCase) (n : Nat) (hlo : 9223372036854775808 < n)
    (hhi : n ≤ 99999999999999999999) :
    parse_chinese_number_to_i64 TenThousand
      (negChar v :: emitUnsigned TenThousand v c n) = .error .Underflow := by
  have hb : n < 10 ^ unitExp TenThousand 4 := by
    norm_num [unitExp]
    omega
  have hgood := emitUnsigned_goodChars TenThousand v c n
  have hlen : (emitUnsigned TenThousand v c n).length ≤ 39 := by
    have := emitUnsigned_length_le TenThousand v c n 20 (by norm_num)
      (by omega)
    omega
  have hfull := parseFull_emitUnsigned TenThousand 4 (by norm_num) v c n hb
  unfold parse_chinese_number_to_i64
  rw [stripSpaces_cons (negChar_ne_space v), stripSpaces_eq_self hgood]
  cases hE : emitUnsigned TenThousand v c n with
  | nil => exact absurd hE (emitUnsigned_ne_nil TenThousand v c n)
  | cons f2 r2 =>
    rw [hE] at hfull hlen
    unfold chinese_digit_10000000000000000_ten_thousand_compat
    simp only [negChar_mem v, if_true, List.take_of_length_le hlen, hfull]
    rw [if_pos (by omega)]

theorem parse_i64_tt_pos_overflow (v : ChineseVariant)
    (c : ChineseNumberCase) (n : Nat) (hlo : 9223372036854775807 < n)
    (hhi : n ≤ 99999999999999999999) :
    parse_chinese_number_to_i64 TenThousand (emitUnsigned TenThousand v c n) =
      .error .Overflow := by
  have hb : n < 10 ^ unitExp TenThousand 4 := by
    norm_num [unitExp]
    omega
  have hgood := emitUnsigned_goodChars TenThousand v c n
  have hlen : (emitUnsigned TenThousand v c n).length ≤ 39 := by
    have := emitUnsigned_length_le TenThousand v c n 20 (by norm_num)
      (by omega)
    omega
  have hfull := parseFull_emitUnsigned TenThousand 4 (by norm_num) v c n hb
  unfold parse_chinese_number_to_i64
  rw [stripSpaces_eq_self hgood]
  cases hE : emitUnsigned TenThousand v c n with
  | nil => exact absurd hE (emitUnsigned_ne_nil TenThousand v c n)
  | cons f2 r2 =>
    rw [hE] at hfull hlen
    have hf2 : f2 ∉ negCharList := by
      apply goodChar_not_neg
      apply hgood
      rw [hE]
      exact List.mem_cons_self _ _
    unfold chinese_digit_10000000000000000_ten_thousand_compat
    simp only [hf2, if_false, List.take_of_length_le hlen, hfull]
    rw [if_pos (by omega)]

theorem from_i128_neg (v : ChineseVariant) (c : ChineseNumberCase)
    (m : ChineseNumberCountMethod) (x : Int)
    (h1 : -170141183460469231731687303715884105728 ≤ x) (h2 : x < 0) :
    from_i128 v c m x =
      (from_u128 v c m x.natAbs).map (fun s => negChar v :: s) := by
  unfold from_i128
  rw [if_pos h2]
  have h127 : (-(2 ^ 127) : Int) = -170141183460469231731687303715884105728 :=
    by norm_num
  by_cases hmin : x = -170141183460469231731687303715884105728
  · rw [h127, if_pos hmin]
    have harg : (wrapU 128 (-(intAsWidth 128 (x + 1))) + 1) % 2 ^ 128 =
        x.natAbs := by
      rw [intAsW128, wrapU128]
      omega
    rw [harg]
  · rw [h127, if_neg hmin]
    have harg : wrapU 128 (intAsWidth 128 (-x)) = x.natAbs := by
      rw [intAsW128, wrapU128]
      omega
    rw [harg]

/-! ## The claims -/

/-- C1 (amended): round-trip for the integer widths 8–64.  For every value
in the target width's range and every variant, case and convention valid
for the value — the Low convention of the 64-bit entry points carries the
documented precondition magnitude < 10¹⁶ — parsing the formatter's output
with the same convention returns exactly the value.  The original claim
also asserted this for width 128; it fails there because the 128-bit
parsers are unimplemented (see the counterexample). -/
theorem roundtrip_integer_8_to_64 :
    (∀ (v : ChineseVariant) (c : ChineseNumberCase) (n : Nat), n ≤ 255 →
      parse_chinese_number_to_u8 (from_u8 v c n) = .ok n) ∧
    (∀ (v : ChineseVariant) (c : ChineseNumberCase) (n : Nat), n ≤ 65535 →
      parse_chinese_number_to_u16 (from_u16 v c n) = .ok n) ∧
    (∀ (v : ChineseVariant) (c : ChineseNumberCase)
      (m : ChineseNumberCountMethod) (n : Nat), n ≤ 4294967295 →
      parse_chinese_number_to_u32 m (from_u32 v c m n) = .ok n) ∧
    (∀ (v : ChineseVariant) (c : ChineseNumberCase)
      (m : ChineseNumberCountMethod) (n : Nat), n ≤ 18446744073709551615 →
      (m = Low → n < 10000000000000000) →
      parse_chinese_number_to_u64 m (from_u64 v c m n) = .ok n) ∧
    (∀ (v : ChineseVariant) (c : ChineseNumberCase) (x : Int),
      -128 ≤ x → x ≤ 127 →
      parse_chinese_number_to_i8 (from_i8 v c x) = .ok x) ∧
    (∀ (v : ChineseVariant) (c : ChineseNumberCase) (x : Int),
      -32768 ≤ x → x ≤ 32767 →
      parse_chinese_number_to_i16 (from_i16 v c x) = .ok x) ∧
    (∀ (v : ChineseVariant) (c : ChineseNumberCase)
      (m : ChineseNumberCountMethod) (x : Int),
      -2147483648 ≤ x → x ≤ 2147483647 →
      parse_chinese_number_to_i32 m (from_i32 v c m x) = .ok x) ∧
    (∀ (v : ChineseVariant) (c : ChineseNumberCase)
      (m : ChineseNumberCountMethod) (x : Int),
      -9223372036854775808 ≤ x → x ≤ 9223372036854775807 →
      (m = Low → x.natAbs < 10000000000000000) →
      parse_chinese_number_to_i64 m (from_i64 v c m x) = .ok x) :=
  ⟨roundtrip_u8, roundtrip_u16, roundtrip_u32, roundtrip_u64,
    roundtrip_i8, roundtrip_i16, roundtrip_i32, roundtrip_i64⟩

/-- Round-trip instances at the extremes of u8 and i64. -/
theorem roundtrip_integer_8_to_64_witness :
    parse_chinese_number_to_u8 (from_u8 Traditional Lower 255) = .ok 255 ∧
    parse_chinese_number_to_i64 TenThousand
      (from_i64 Simple Upper TenThousand (-9223372036854775808)) =
      .ok (-9223372036854775808) :=
  ⟨roundtrip_integer_8_to_64.1 Traditional Lower 255 (by decide),
    roundtrip_integer_8_to_64.2.2.2.2.2.2.2 Simple Upper TenThousand
      (-9223372036854775808) (by decide) (by decide)
      (fun h => absurd h (by decide))⟩

/-- Counterexample to the original C1 at width 128: the 128-bit parser
never completes, so already the value 1 does not round-trip through the
u128 formatter. -/
theorem roundtrip_u128_fails :
    parse_chinese_number_to_u128 TenThousand
      ((from_u128 Traditional Lower TenThousand 1).getD []) ≠
      some (.ok 1) :=
  fun h => Option.noConfusion h

/-- C2: the single input 一兆 parses to exactly four convention-dependent
values: 10⁶ under Low, 10¹² under TenThousand and 10¹⁶ under both Middle
and High. -/
theorem parse_one_zhao_by_convention :
    parse_chinese_number_to_u64 Low ['一', '兆'] = .ok 1000000 ∧
    parse_chinese_number_to_u64 TenThousand ['一', '兆'] =
      .ok 1000000000000 ∧
    parse_chinese_number_to_u64 Middle ['一', '兆'] =
      .ok 10000000000000000 ∧
    parse_chinese_number_to_u64 High ['一', '兆'] =
      .ok 10000000000000000 :=
  ⟨rfl, rfl, rfl, rfl⟩

/-- C3 (amended): boundary exactness of the implemented signed parsers,
widths 8–64, over every convention arm the source implements: i8/i16 are
convention-free, i32 is covered for Low and for the shared
TenThousand/Middle/High arm, and i64 for the TenThousand, Middle and High
arms (the i64 Low arm parses only magnitudes < 10¹⁶, so its 2⁶³ boundary
is unreachable and it has no boundary behaviour to state).  A negative
numeral of magnitude exactly `|min| = max + 1` parses to the minimum; any
larger parseable magnitude yields `Underflow`; a non-negative numeral
beyond `max` yields `Overflow`.  The original claim quantified over every
signed width, which fails at width 128 where the parser is unimplemented
(see the counterexample). -/
theorem signed_boundary_exact_8_to_64 :
    (∀ (v : ChineseVariant) (c : ChineseNumberCase),
      parse_chinese_number_to_i8
        (negChar v :: emitUnsigned TenThousand v c 128) = .ok (-128)) ∧
    (∀ (v : ChineseVariant) (c : ChineseNumberCase) (n : Nat),
      128 < n → n ≤ 999 →
      parse_chinese_number_to_i8 (negChar v :: emitUnsigned TenThousand v c n)
        = .error .Underflow) ∧
    (∀ (v : ChineseVariant) (c : ChineseNumberCase) (n : Nat),
      127 < n → n ≤ 999 →
      parse_chinese_number_to_i8 (emitUnsigned TenThousand v c n) =
        .error .Overflow) ∧
    (∀ (v : ChineseVariant) (c : ChineseNumberCase),
      parse_chinese_number_to_i16
        (negChar v :: emitUnsigned TenThousand v c 32768) = .ok (-32768)) ∧
    (∀ (v : ChineseVariant) (c : ChineseNumberCase) (n : Nat),
      32768 < n → n ≤ 99999999 →
      parse_chinese_number_to_i16
        (negChar v :: emitUnsigned TenThousand v c n) = .error .Underflow) ∧
    (∀ (v : ChineseVariant) (c : ChineseNumberCase) (n : Nat),
      32767 < n → n ≤ 99999999 →
      parse_chinese_number_to_i16 (emitUnsigned TenThousand v c n) =
        .error .Overflow) ∧
    (∀ (v : ChineseVariant) (c : ChineseNumberCase)
      (m : ChineseNumberCountMethod),
      parse_chinese_number_to_i32 m
        (negChar v :: from_u32 v c m 2147483648) = .ok (-2147483648)) ∧
    (∀ (v : ChineseVariant) (c : ChineseNumberCase) (n : Nat),
      2147483648 < n → n ≤ 9999999999 →
      parse_chinese_number_to_i32 Low
        (negChar v :: emitUnsigned Low v c n) = .error .Underflow) ∧
    (∀ (v : ChineseVariant) (c : ChineseNumberCase) (n : Nat),
      2147483647 < n → n ≤ 9999999999 →
      parse_chinese_number_to_i32 Low (emitUnsigned Low v c n) =
        .error .Overflow) ∧
    (∀ (v : ChineseVariant) (c : ChineseNumberCase)
      (m : ChineseNumberCountMethod) (n : Nat), m ≠ Low →
      2147483648 < n → n ≤ 999999999999 →
      parse_chinese_number_to_i32 m
        (negChar v :: emitUnsigned TenThousand v c n) = .error .Underflow) ∧
    (∀ (v : ChineseVariant) (c : ChineseNumberCase)
      (m : ChineseNumberCountMethod) (n : Nat), m ≠ Low →
      2147483647 < n → n ≤ 999999999999 →
      parse_chinese_number_to_i32 m (emitUnsigned TenThousand v c n)
        = .error .Overflow) ∧
    (∀ (v : ChineseVariant) (c : ChineseNumberCase)
      (m : ChineseNumberCountMethod), m ≠ Low →
      parse_chinese_number_to_i64 m
        (negChar v :: from_u64 v c m 9223372036854775808) =
        .ok (-9223372036854775808)) ∧
    (∀ (v : ChineseVariant) (c : ChineseNumberCase) (n : Nat),
      9223372036854775808 < n → n ≤ 99999999999999999999 →
      parse_chinese_number_to_i64 TenThousand
        (negChar v :: emitUnsigned TenThousand v c n) = .error .Underflow) ∧
    (∀ (v : ChineseVariant) (c : ChineseNumberCase) (n : Nat),
      9223372036854775807 < n → n ≤ 99999999999999999999 →
      parse_chinese_number_to_i64 TenThousand (emitUnsigned TenThousand v c n)
        = .error .Overflow) ∧
    (∀ (v : ChineseVariant) (c : ChineseNumberCase) (n : Nat),
      9223372036854775808 < n → n ≤ 999999999999999999999999 →
      parse_chinese_number_to_i64 Middle
        (negChar v :: emitUnsigned Middle v c n) = .error .Underflow) ∧
    (∀ (v : ChineseVariant) (c : ChineseNumberCase) (n : Nat),
      9223372036854775807 < n → n ≤ 999999999999999999999999 →
      parse_chinese_number_to_i64 Middle (emitUnsigned Middle v c n) =
        .error .Overflow) ∧
    (∀ (v : ChineseVariant) (c : ChineseNumberCase) (n : Nat),
      9223372036854775808 < n → n ≤ 999999999999999999999999 →
      parse_chinese_number_to_i64 High
        (negChar v :: emitUnsigned High v c n) = .error .Underflow) ∧
    (∀ (v : ChineseVariant) (c : ChineseNumberCase) (n : Nat),
      9223372036854775807 < n → n ≤ 999999999999999999999999 →
      parse_chinese_number_to_i64 High (emitUnsigned High v c n) =
        .error .Overflow) := by
  refine ⟨?_, parse_i8_neg_underflow, parse_i8_pos_overflow, ?_,
    parse_i16_neg_underflow, parse_i16_pos_overflow, ?_,
    parse_i32_low_neg_underflow, parse_i32_low_pos_overflow, ?_, ?_, ?_,
    parse_i64_tt_neg_underflow, parse_i64_tt_pos_overflow,
    parse_i64_mid_neg_underflow, parse_i64_mid_pos_overflow, ?_, ?_⟩
  · intro v c
    have h := roundtrip_i8 v c (-128) (by norm_num) (by norm_num)
    rw [from_i8_neg v c (-128) (by norm_num) (by norm_num)] at h
    exact h
  · intro v c
    have h := roundtrip_i16 v c (-32768) (by norm_num) (by norm_num)
    rw [from_i16_neg v c (-32768) (by norm_num) (by norm_num)] at h
    exact h
  · intro v c m
    have h := roundtrip_i32 v c m (-2147483648) (by norm_num) (by norm_num)
    rw [from_i32_neg v c m (-2147483648) (by norm_num) (by norm_num)] at h
    exact h
  · intro v c m n hm hlo hhi
    rw [parse_i32_method_merge m hm]
    exact parse_i32_tt_neg_underflow v c n hlo hhi
  · intro v c m n hm hlo hhi
    rw [parse_i32_method_merge m hm]
    exact parse_i32_tt_pos_overflow v c n hlo hhi
  · intro v c m hm
    have h := roundtrip_i64 v c m (-9223372036854775808) (by norm_num)
      (by norm_num) (fun hh => absurd hh hm)
    rw [from_i64_neg v c m (-9223372036854775808) (by norm_num)
      (by norm_num)] at h
    exact h
  · intro v c n hlo hhi
    rw [parse_i64_entry_high_eq_middle,
      emitUnsigned_high_eq_middle v c n (by norm_num; omega)]
    exact parse_i64_mid_neg_underflow v c n hlo hhi
  · intro v c n hlo hhi
    rw [parse_i64_entry_high_eq_middle,
      emitUnsigned_high_eq_middle v c n (by norm_num; omega)]
    exact parse_i64_mid_pos_overflow v c n hlo hhi

/-- Boundary instances: magnitude 129 underflows i8, and magnitude
9223372036854775809 underflows a negative i64 parse under the High
convention. -/
theorem signed_boundary_exact_8_to_64_witness :
    parse_chinese_number_to_i8
      (negChar Traditional :: emitUnsigned TenThousand Traditional Lower 129)
      = .error .Underflow ∧
    parse_chinese_number_to_i64 High
      (negChar Simple :: emitUnsigned High Simple Upper 9223372036854775809)
      = .error .Underflow :=
  ⟨signed_boundary_exact_8_to_64.2.1 Traditional Lower 129 (by decide)
      (by decide),
    signed_boundary_exact_8_to_64.2.2.2.2.2.2.2.2.2.2.2.2.2.2.2.2.1
      Simple Upper 9223372036854775809 (by decide) (by decide)⟩

/-- Counterexample to the original C3 at width 128: parsing the formatted
i128 minimum never returns, in particular never the minimum value. -/
theorem parse_i128_never_returns_min :
    parse_chinese_number_to_i128 TenThousand
      ((from_i128 Traditional Lower TenThousand
        (-170141183460469231731687303715884105728)).getD []) ≠
      some (.ok (-170141183460469231731687303715884105728)) :=
  fun h => Option.noConfusion h

/-- C4: the error index for the same offending character after a negative
sign is width-dependent, contradicting the specified uniform rule
(sign at index 0, first digit at index 1).  For 負月 the helper fails on
月 — the first magnitude character, character index 1 of the stripped
input — and i32/i64 report 1 as specified, but i8/i16 report the raw
helper index 0, pointing at the negative sign. -/
theorem negative_error_index_width_dependent :
    parse_chinese_number_to_i8 ['負', '月'] =
      .error (.ChineseNumberIncorrect 0) ∧
    parse_chinese_number_to_i16 ['負', '月'] =
      .error (.ChineseNumberIncorrect 0) ∧
    parse_chinese_number_to_i32 TenThousand ['負', '月'] =
      .error (.ChineseNumberIncorrect 1) ∧
    parse_chinese_number_to_i64 TenThousand ['負', '月'] =
      .error (.ChineseNumberIncorrect 1) :=
  ⟨rfl, rfl, rfl, rfl⟩

/-- C5: every signed formatter renders a negative value as the negative
sign followed by the unsigned rendering of the magnitude, and the
magnitude is computed exactly even at each width's minimum — the last five
conjuncts show the minimum emitting precisely 2^(w-1). -/
theorem signed_formatter_neg_decomposition :
    (∀ (v : ChineseVariant) (c : ChineseNumberCase) (x : Int),
      -128 ≤ x → x < 0 →
      from_i8 v c x = negChar v :: from_u8 v c x.natAbs) ∧
    (∀ (v : ChineseVariant) (c : ChineseNumberCase) (x : Int),
      -32768 ≤ x → x < 0 →
      from_i16 v c x = negChar v :: from_u16 v c x.natAbs) ∧
    (∀ (v : ChineseVariant) (c : ChineseNumberCase)
      (m : ChineseNumberCountMethod) (x : Int),
      -2147483648 ≤ x → x < 0 →
      from_i32 v c m x = negChar v :: from_u32 v c m x.natAbs) ∧
    (∀ (v : ChineseVariant) (c : ChineseNumberCase)
      (m : ChineseNumberCountMethod) (x : Int),
      -9223372036854775808 ≤ x → x < 0 →
      from_i64 v c m x = negChar v :: from_u64 v c m x.natAbs) ∧
    (∀ (v : ChineseVariant) (c : ChineseNumberCase)
      (m : ChineseNumberCountMethod) (x : Int),
      -170141183460469231731687303715884105728 ≤ x → x < 0 →
      from_i128 v c m x =
        (from_u128 v c m x.natAbs).map (fun s => negChar v :: s)) ∧
    (∀ (v : ChineseVariant) (c : ChineseNumberCase),
      from_i8 v c (-128) = negChar v :: from_u8 v c 128) ∧
    (∀ (v : ChineseVariant) (c : ChineseNumberCase),
      from_i16 v c (-32768) = negChar v :: from_u16 v c 32768) ∧
    (∀ (v : ChineseVariant) (c : ChineseNumberCase)
      (m : ChineseNumberCountMethod),
      from_i32 v c m (-2147483648) =
        negChar v :: from_u32 v c m 2147483648) ∧
    (∀ (v : ChineseVariant) (c : ChineseNumberCase)
      (m : ChineseNumberCountMethod),
      from_i64 v c m (-9223372036854775808) =
        negChar v :: from_u64 v c m 9223372036854775808) ∧
    (∀ (v : ChineseVariant) (c : ChineseNumberCase)
      (m : ChineseNumberCountMethod),
      from_i128 v c m (-170141183460469231731687303715884105728) =
        (from_u128 v c m 170141183460469231731687303715884105728).map
          (fun s => negChar v :: s)) :=
  ⟨from_i8_neg, from_i16_neg, from_i32_neg, from_i64_neg, from_i128_neg,
    fun v c => from_i8_neg v c (-128) (by norm_num) (by norm_num),
    fun v c => from_i16_neg v c (-32768) (by norm_num) (by norm_num),
    fun v c m => from_i32_neg v c m (-2147483648) (by norm_num)
      (by norm_num),
    fun v c m => from_i64_neg v c m (-9223372036854775808) (by norm_num)
      (by norm_num),
    fun v c m => from_i128_neg v c m
      (-170141183460469231731687303715884105728) (by norm_num)
      (by norm_num)⟩

/-- Sign-decomposition instances for i8 and for the i128 minimum. -/
theorem signed_formatter_neg_decomposition_witness :
    from_i8 Traditional Upper (-5) =
      negChar Traditional :: from_u8 Traditional Upper 5 ∧
    from_i128 Simple Lower Middle
      (-170141183460469231731687303715884105728) =
      (from_u128 Simple Lower Middle
        170141183460469231731687303715884105728).map
        (fun s => negChar Simple :: s) :=
  ⟨signed_formatter_neg_decomposition.1 Traditional Upper (-5) (by decide)
      (by decide),
    signed_formatter_neg_decomposition.2.2.2.2.1 Simple Lower Middle
      (-170141183460469231731687303715884105728) (le_refl _) (by decide)⟩

/-- C6: the i16 value −30303 formats, with the Traditional variant, the
informal (Lower) case and the TenThousand convention, to exactly
負三萬零三百零三. -/
theorem format_neg_30303_traditional_informal :
    from_i16 Traditional Lower (-30303) =
      ['負', '三', '萬', '零', '三', '百', '零', '三'] := by
  unfold from_i16
  rw [if_pos (by norm_num), if_neg (by norm_num)]
  have hmag : wrapU 16 (intAsWidth 16 (-(-30303 : Int))) = 30303 := by
    rw [intAsW16, wrapU16]
    rfl
  rw [hmag]
  show negChar Traditional ::
    emitUnsigned TenThousand Traditional Lower 30303 = _
  unfold emitUnsigned
  rw [if_neg (by norm_num)]
  rw [renderCascade_some
    (show largestUnit TenThousand 30303 = some 0 from rfl)]
  norm_num [unitExp]
  rw [renderCascade_none (show largestUnit TenThousand 3 = none from rfl),
    renderCascade_none (show largestUnit TenThousand 303 = none from rfl)]
  exact ⟨rfl, rfl⟩

/-- C7: the Low arm of the u128 formatter aborts exactly for values ≥ 10¹⁶
and returns normally below that bound. -/
theorem from_u128_low_none_iff (v : ChineseVariant) (c : ChineseNumberCase)
    (n : Nat) :
    from_u128 v c Low n = none ↔ 10000000000000000 ≤ n := by
  show (if n < 10000000000000000 then some (emitUnsigned Low v c n)
    else none) = none ↔ 10000000000000000 ≤ n
  split_ifs with h
  · constructor
    · intro hc
      exact hc.elim
    · intro hn
      omega
  · constructor
    · intro _
      omega
    · intro _
      rfl

/-- C8: both 128-bit parse entry points never complete with any result. -/
theorem parse_128_never_returns (m : ChineseNumberCountMethod)
    (s : List Char) :
    parse_chinese_number_to_i128 m s = none ∧
    parse_chinese_number_to_u128 m s = none :=
  ⟨rfl, rfl⟩

/-- C9: the convention argument has no influence at the 8-bit and 16-bit
widths: every convention-specific trait formatter produces the identical
string, and the trait parsers return the identical result for every
convention argument. -/
theorem trait_8_16_bit_convention_blind :
    (∀ (v : ChineseVariant) (x : Int),
      i8.to_uppercase_high v x = i8.to_uppercase_middle v x ∧
      i8.to_uppercase_middle v x = i8.to_uppercase_ten_thousand v x ∧
      i8.to_uppercase_ten_thousand v x = i8.to_uppercase_low v x ∧
      i8.to_lowercase_high v x = i8.to_lowercase_middle v x ∧
      i8.to_lowercase_middle v x = i8.to_lowercase_ten_thousand v x ∧
      i8.to_lowercase_ten_thousand v x = i8.to_lowercase_low v x) ∧
    (∀ (v : ChineseVariant) (n : Nat),
      u8.to_uppercase_high v n = u8.to_uppercase_middle v n ∧
      u8.to_uppercase_middle v n = u8.to_uppercase_ten_thousand v n ∧
      u8.to_uppercase_ten_thousand v n = u8.to_uppercase_low v n ∧
      u8.to_lowercase_high v n = u8.to_lowercase_middle v n ∧
      u8.to_lowercase_middle v n = u8.to_lowercase_ten_thousand v n ∧
      u8.to_lowercase_ten_thousand v n = u8.to_lowercase_low v n) ∧
    (∀ (v : ChineseVariant) (x : Int),
      i16.to_uppercase_high v x = i16.to_uppercase_middle v x ∧
      i16.to_uppercase_middle v x = i16.to_uppercase_ten_thousand v x ∧
      i16.to_uppercase_ten_thousand v x = i16.to_uppercase_low v x ∧
      i16.to_lowercase_high v x = i16.to_lowercase_middle v x ∧
      i16.to_lowercase_middle v x = i16.to_lowercase_ten_thousand v x ∧
      i16.to_lowercase_ten_thousand v x = i16.to_lowercase_low v x) ∧
    (∀ (v : ChineseVariant) (n : Nat),
      u16.to_uppercase_high v n = u16.to_uppercase_middle v n ∧
      u16.to_uppercase_middle v n = u16.to_uppercase_ten_thousand v n ∧
      u16.to_uppercase_ten_thousand v n = u16.to_uppercase_low v n ∧
      u16.to_lowercase_high v n = u16.to_lowercase_middle v n ∧
      u16.to_lowercase_middle v n = u16.to_lowercase_ten_thousand v n ∧
      u16.to_lowercase_ten_thousand v n = u16.to_lowercase_low v n) ∧
    (∀ (m1 m2 : ChineseNumberCountMethod) (s : List Char),
      i8.parse_chinese_number m1 s = i8.parse_chinese_number m2 s) ∧
    (∀ (m1 m2 : ChineseNumberCountMethod) (s : List Char),
      u8.parse_chinese_number m1 s = u8.parse_chinese_number m2 s) ∧
    (∀ (m1 m2 : ChineseNumberCountMethod) (s : List Char),
      i16.parse_chinese_number m1 s = i16.parse_chinese_number m2 s) ∧
    (∀ (m1 m2 : ChineseNumberCountMethod) (s : List Char),
      u16.parse_chinese_number m1 s = u16.parse_chinese_number m2 s) :=
  ⟨fun _ _ => ⟨rfl, rfl, rfl, rfl, rfl, rfl⟩,
    fun _ _ => ⟨rfl, rfl, rfl, rfl, rfl, rfl⟩,
    fun _ _ => ⟨rfl, rfl, rfl, rfl, rfl, rfl⟩,
    fun _ _ => ⟨rfl, rfl, rfl, rfl, rfl, rfl⟩,
    fun _ _ _ => rfl, fun _ _ _ => rfl, fun _ _ _ => rfl, fun _ _ _ => rfl⟩

/-- C10: whenever the portion of the (space-stripped) input before the
first fraction unit is a single digit character — as in the formatter's
own output 一角二分 for 0.12 — that character is consumed as the tenths
digit, the remaining integer part is empty, and the f64 parser fails with
`ChineseNumberEmpty`. -/
theorem parse_f64_single_integer_char_empty (m : ChineseNumberCountMethod)
    (s : List Char) (c u : Char) (rest : List Char) (d : Nat)
    (hs : stripSpaces s = c :: u :: rest)
    (hc : charToDigit c = some d)
    (hu : u = fractionChar 0 ∨
      (u = fractionChar 1 ∧ fractionChar 0 ∉ rest)) :
    parse_chinese_number_to_f64 m s =
      some (.error .ChineseNumberEmpty) := by
  unfold parse_chinese_number_to_f64
  rw [hs]
  exact parse_f64_core_single_digit_prefix m c u rest d hc hu

/-- The claim's own instance: the formatter output 一角二分 for 0.12. -/
theorem parse_f64_single_integer_char_empty_witness :
    parse_chinese_number_to_f64 TenThousand ['一', '角', '二', '分'] =
      some (.error .ChineseNumberEmpty) :=
  parse_f64_single_integer_char_empty TenThousand ['一', '角', '二', '分']
    '一' '角' ['二', '分'] 1 rfl rfl (Or.inl rfl)

end ChineseNumber
